import Mathlib

/-!
Verification of the douyin_phaser repository: a shallow embedding of the
pure algorithmic core of `douyin_phaser.py` and `douyin_user_phaser.py`
(quality selection, note reconciliation, DOM dedup, short-URL resolution,
cursor pagination, user-info merge), together with theorems settling the
specification claims.  Browser/network effects are abstracted as oracle
parameters (response streams, intercepted payloads, DOM extraction output);
Python dict-field access is modelled with `Option`, Python truthiness of
strings/ints with explicit emptiness/zero tests.
-/

/-! ## String helpers (Python `in` substring test) -/

/-- Model of Python list/string startswith on character lists. -/
def strStartsWith : List Char → List Char → Bool
  | _, [] => true
  | [], _ :: _ => false
  | a :: as, b :: bs => a == b && strStartsWith as bs

/-- Substring occurrence on character lists (Python `needle in hay`). -/
def strFindSub : List Char → List Char → Bool
  | [], needle => strStartsWith [] needle
  | a :: t, needle => strStartsWith (a :: t) needle || strFindSub t needle

/-- Python `needle in hay` on strings. -/
def strContains (hay needle : String) : Bool :=
  strFindSub hay.data needle.data

/-- Python truthiness of an optional string: present and non-empty. -/
def truthyS : Option String → Bool
  | none => false
  | some s => s != ""

/-! ## `_select_best_url` (douyin_phaser.py lines 156-161) -/

/-- `_select_best_url(url_list, preferred_domain)`: first URL containing the
marker, else the first URL, else `None`. -/
def select_best_url (url_list : List String) (preferred_domain : String) : Option String :=
  match url_list.find? (fun u => strContains u preferred_domain) with
  | some u => some u
  | none => url_list.head?

/-! ## Video quality selection (`_parse_video_detail`, douyin_phaser.py 450-520,
and the identical loop in `extract_video_from_api`, lines 268-314) -/

/-- One entry of the `bit_rate` list of a video detail payload.  `width`,
`height` and `url_list` live on the entry's `play_addr` dict in the JSON. -/
structure BitRateVariant where
  format : String
  bit_rate : Nat
  width : Nat
  height : Nat
  url_list : List String
deriving DecidableEq

/-- The fields of the `video` dict of an aweme detail that the code reads.
`bit_rate = none` models the `"bit_rate" not in video` case; `cover = none`
models an absent or empty (falsy) `cover` dict, `cover = some l` a truthy
`cover` dict with `url_list` defaulted to `l`. -/
structure VideoDetail where
  bit_rate : Option (List BitRateVariant)
  play_addr_urls : List String
  cover : Option (List String)
  origin_cover_urls : List String
deriving DecidableEq

/-- The running `(best_url, best_resolution, best_bitrate)` state of the
selection loop. -/
structure SelSt where
  url : Option String
  res : Nat
  br : Nat
deriving DecidableEq

/-- One iteration of the selection loop of `_parse_video_detail`. -/
def selStep (st : SelSt) (v : BitRateVariant) : SelSt :=
  if v.format ≠ "mp4" ∨ v.width = 0 then st
  else
    if v.width * v.height > st.res ∨ (v.width * v.height = st.res ∧ v.bit_rate > st.br) then
      if v.url_list = [] then st
      else { url := select_best_url v.url_list "douyinvod.com"
           , res := v.width * v.height
           , br := v.bit_rate }
    else st

/-- The whole selection loop, started from `(None, 0, 0)`. -/
def selLoop (l : List BitRateVariant) : SelSt :=
  l.foldl selStep { url := none, res := 0, br := 0 }

/-- The final URL computed by `_parse_video_detail`: loop result if truthy,
else the default `play_addr` first URL, with a falsy final value giving
`None` (the `if not best_url: return None` exit). -/
def videoBestUrl (v : VideoDetail) : Option String :=
  let st := selLoop (v.bit_rate.getD [])
  let u1 := if truthyS st.url then st.url else v.play_addr_urls.head?
  if truthyS u1 then u1 else none

/-! Specification-side description of the selection (for claim C1). -/

/-- Strict lexicographic order on `(resolution, bitrate)` pairs. -/
def lexGt (p q : Nat × Nat) : Prop :=
  p.1 > q.1 ∨ (p.1 = q.1 ∧ p.2 > q.2)

/-- Reflexive lexicographic order on `(resolution, bitrate)` pairs. -/
def lexGe (p q : Nat × Nat) : Prop :=
  p.1 > q.1 ∨ (p.1 = q.1 ∧ p.2 ≥ q.2)

instance (p q : Nat × Nat) : Decidable (lexGt p q) := by
  unfold lexGt; infer_instance

instance (p q : Nat × Nat) : Decidable (lexGe p q) := by
  unfold lexGe; infer_instance

/-- The comparison key of a variant: `(width*height, bit_rate)`. -/
def vkey (v : BitRateVariant) : Nat × Nat := (v.width * v.height, v.bit_rate)

/-- `v` is strictly better than `b` (higher resolution, then higher bitrate). -/
def betterKey (v b : BitRateVariant) : Prop := lexGt (vkey v) (vkey b)

instance (v b : BitRateVariant) : Decidable (betterKey v b) := by
  unfold betterKey; infer_instance

/-- Eligibility of a variant for selection, as the code enforces it: muxed
mp4 format, nonzero width, a non-empty candidate URL list, and a comparison
key lexicographically above the loop's `(0, 0)` start sentinel. -/
def eligVariant (v : BitRateVariant) : Bool :=
  v.format == "mp4" && v.width != 0 && !v.url_list.isEmpty
    && (v.width * v.height != 0 || v.bit_rate != 0)

/-- One step of the specification-side argmax over eligible variants: an
ineligible variant leaves the accumulator unchanged, an eligible one becomes
the accumulator when it is strictly better (or the first). -/
def specStep (acc : Option BitRateVariant) (v : BitRateVariant) : Option BitRateVariant :=
  match acc with
  | none => if eligVariant v then some v else none
  | some b => if eligVariant v then (if betterKey v b then some v else some b) else some b

/-- Modelled from the spec (amended claim C1): the earliest variant attaining
the lexicographic maximum of `(width*height, bit_rate)` among eligible
variants (strict improvement, so the earliest full tie wins). -/
def chooseSpecVariant (l : List BitRateVariant) : Option BitRateVariant :=
  l.foldl specStep none

/-- The URL the code extracts from a winning variant. -/
def variantUrl (v : BitRateVariant) : Option String :=
  select_best_url v.url_list "douyinvod.com"

/-- Abstraction map from a chosen variant to the loop state it induces. -/
def absSt : Option BitRateVariant → SelSt
  | none => { url := none, res := 0, br := 0 }
  | some v => { url := variantUrl v, res := v.width * v.height, br := v.bit_rate }

/-! ## Note reconciliation (`extract_note_from_api`, douyin_phaser.py 164-236) -/

/-- One record of the `images` list of a note detail.  `url_list = none`
models an absent `url_list` key; `video_urls = none` models an absent
`video` key, `video_urls = some l` the embedded rendition's
`play_addr.url_list` defaulted to `l`. -/
structure ImageRecord where
  url_list : Option (List String)
  video_urls : Option (List String)
deriving DecidableEq

/-- The embedded-video URL choice of `extract_note_from_api` for a non-empty
candidate list: the strong-marker selection, and only when that is falsy
the weak-marker selection. -/
def note_video_url_from (l : List String) : Option String :=
  let v1 := select_best_url l "v3-web.douyinvod"
  if truthyS v1 then v1 else select_best_url l "douyinvod"

/-- The `video_url` computed for one image record. -/
def noteVideoUrl (rec : ImageRecord) : Option String :=
  match rec.video_urls with
  | none => none
  | some l => if l = [] then none else note_video_url_from l

/-- The `image_url` computed for one image record. -/
def imageUrlOf (rec : ImageRecord) : Option String :=
  match rec.url_list with
  | some l => select_best_url l "douyinpic"
  | none => none

/-- A produced media item.  `animated`'s image URL is optional because the
DOM fallback of `get_douyin_media` can omit the `image_url` key. -/
inductive MediaItem where
  | video (video_url : String) (cover_url : String)
  | image (image_url : String)
  | animated (image_url : Option String) (video_url : String)
deriving DecidableEq

/-- The item built for one image record (`None` when the record yields no
item): animated when both URLs are truthy, image when only the image URL is
truthy, nothing otherwise. -/
def itemOf (rec : ImageRecord) : Option MediaItem :=
  match noteVideoUrl rec, imageUrlOf rec with
  | some v, some i =>
    if v ≠ "" ∧ i ≠ "" then some (MediaItem.animated (some i) v)
    else if i ≠ "" then some (MediaItem.image i)
    else none
  | none, some i => if i ≠ "" then some (MediaItem.image i) else none
  | _, none => none

/-- The items list built by `extract_note_from_api` from the `images` list. -/
def extract_note_items (images : List ImageRecord) : List MediaItem :=
  images.filterMap itemOf

/-! ## Metadata and detail payloads -/

/-- The metadata record built by `extract_metadata` (douyin_phaser.py 115-153). -/
structure Metadata where
  title : String
  author : String
  author_id : String
  cover : String
deriving DecidableEq

/-- The fields of an `aweme_detail` payload the code reads.  `author = none`
models an absent/falsy author dict, otherwise `(nickname, sec_uid)`. -/
structure Detail where
  desc : String
  author : Option (String × String)
  video : Option VideoDetail
  images : Option (List ImageRecord)
deriving DecidableEq

/-- `extract_metadata(detail)`. -/
def extract_metadata (d : Option Detail) : Metadata :=
  match d with
  | none => { title := "", author := "", author_id := "", cover := "" }
  | some detail =>
    let a := match detail.author with
      | some p => p
      | none => ("", "")
    let cover0 := match detail.video with
      | some v => (match v.cover with
          | some l => l
          | none => v.origin_cover_urls).headD ""
      | none => ""
    let cover := if cover0 ≠ "" then cover0 else
      match detail.images with
      | some (img :: _) => (img.url_list.getD []).headD ""
      | _ => ""
    { title := detail.desc, author := a.1, author_id := a.2, cover := cover }

/-- The canonical single-item result record (`get_douyin_media` return shape). -/
structure ExtractionResult where
  title : String
  author : String
  author_id : String
  cover : String
  rtype : String
  items : List MediaItem
deriving DecidableEq

/-- `_parse_video_detail(detail)` (douyin_phaser.py 450-520). -/
def parse_video_detail (d : Option Detail) : Option ExtractionResult :=
  match d with
  | none => none
  | some detail =>
    match detail.video with
    | none => none
    | some v =>
      match v.bit_rate with
      | none => none
      | some _ =>
        let md := extract_metadata (some detail)
        let cover_url := (v.cover.getD []).headD ""
        match videoBestUrl v with
        | none => none
        | some u =>
          some { title := md.title, author := md.author, author_id := md.author_id
               , cover := md.cover, rtype := "video"
               , items := [MediaItem.video u cover_url] }

/-- `extract_note_from_api`: the API response (collapsed to its
`aweme_detail`, `none` for any failure) must carry an `images` key. -/
def extract_note_from_api (resp : Option Detail) : Option (Metadata × List MediaItem) :=
  match resp with
  | none => none
  | some detail =>
    match detail.images with
    | none => none
    | some images => some (extract_metadata (some detail), extract_note_items images)

/-! ## DOM image dedup (`extract_images_from_dom`, douyin_phaser.py 62-73) -/

/-- `url.split('?')[0].split('~')[0]`: the characters before the first `?`,
then before the first `~` of that. -/
def baseOf (url : String) : String :=
  String.mk ((url.data.takeWhile (fun c => c ≠ '?')).takeWhile (fun c => c ≠ '~'))

/-- The dedup loop of `extract_images_from_dom`: keep a URL when its base was
not seen yet, in input order. -/
def dedupImagesAux (seen : List String) : List String → List String
  | [] => []
  | u :: rest =>
    if baseOf u ∈ seen then dedupImagesAux seen rest
    else u :: dedupImagesAux (baseOf u :: seen) rest

/-- The dedup stage of `extract_images_from_dom` applied to the collected
content-image URLs. -/
def dedup_images (urls : List String) : List String :=
  dedupImagesAux [] urls

/-- Modelled from the spec (claim C8): keep the first URL of every base,
dropping all later URLs with the same base. -/
def keepFirstByBase (l : List String) : List String :=
  match l with
  | [] => []
  | u :: rest => u :: keepFirstByBase (rest.filter (fun v => !(baseOf v == baseOf u)))
termination_by l.length
decreasing_by
  simp only [List.length_cons]
  exact Nat.lt_succ_of_le (List.length_filter_le _ _)

/-! ## Short URL resolution (`_resolve_short_url`, douyin_phaser.py 398-426) -/

/-- `re.search(marker + digits)` on a character list: at the leftmost
position where the literal marker is followed by at least one digit, return
the maximal digit run. -/
def findIdAux (marker : List Char) : List Char → Option (List Char)
  | [] => none
  | c :: t =>
    if strStartsWith (c :: t) marker then
      if ((c :: t).drop marker.length).takeWhile Char.isDigit = [] then findIdAux marker t
      else some (((c :: t).drop marker.length).takeWhile Char.isDigit)
    else findIdAux marker t

/-- `re.search(r'/video/(\d+)', s)`, as the captured digits. -/
def findVideoId (s : String) : Option String :=
  (findIdAux "/video/".data s.data).map String.mk

/-- `re.search(r'/note/(\d+)', s)`, as the captured digits. -/
def findNoteId (s : String) : Option String :=
  (findIdAux "/note/".data s.data).map String.mk

/-- `_resolve_short_url(url)`.  The single HTTP redirect lookup is the
oracle `redirect`: `none` models any raised exception or missing Location
header path (the code catches everything and keeps the original URL),
`some loc` the obtained Location header value. -/
def resolve_short_url (redirect : String → Option String) (url : String) : String :=
  if strContains url "v.douyin.com" || strContains url "/share/" then
    match redirect url with
    | none => url
    | some location =>
      match findVideoId location with
      | some vid => "https://www.douyin.com/video/" ++ vid
      | none =>
        match findNoteId location with
        | some nid => "https://www.douyin.com/note/" ++ nid
        | none => url
  else url

/-! ## `get_douyin_media` orchestration (douyin_phaser.py 523-728) -/

/-- The animated items of the DOM fallback: the i-th video paired with the
i-th image when it exists (`enumerate(dom_videos)` with
`if i < len(dom_images)`), realised by walking both lists. -/
def domAnimatedItems : List String → List String → List MediaItem
  | [], _ => []
  | v :: vs, imgs => MediaItem.animated imgs.head? v :: domAnimatedItems vs imgs.tail

/-- The DOM fallback of the note branch: videos paired positionally with
images, surplus images as plain image items; `None` when nothing was found. -/
def noteDomFallback (dom_images dom_videos : List String) : Option ExtractionResult :=
  let items :=
    if dom_videos ≠ [] then
      domAnimatedItems dom_videos dom_images
        ++ (dom_images.drop dom_videos.length).map MediaItem.image
    else dom_images.map MediaItem.image
  if items ≠ [] then
    some { title := "", author := "", author_id := "", cover := ""
         , rtype := "images", items := items }
  else none

/-- The note-API result as `get_douyin_media` consumes it: a full record when
the API call succeeded with a non-empty items list, `None` otherwise. -/
def noteApiResult (resp : Option Detail) : Option ExtractionResult :=
  match extract_note_from_api resp with
  | some (md, items) =>
    if items ≠ [] then
      some { title := md.title, author := md.author, author_id := md.author_id
           , cover := md.cover, rtype := "images", items := items }
    else none
  | none => none

/-- The `found_data` produced by the response listener `extract_video_from_api`
for the unknown-type branch: requires a video payload with a `bit_rate` key
and a truthy selected URL (the later `if found_data["url"]` check), yielding
`(url, cover_url, metadata)`. -/
def unknownFound (listen : Option Detail) : Option (String × String × Metadata) :=
  match listen with
  | none => none
  | some detail =>
    match detail.video with
    | none => none
    | some v =>
      match v.bit_rate with
      | none => none
      | some _ =>
        match videoBestUrl v with
        | none => none
        | some u => some (u, (v.cover.getD []).headD "", extract_metadata (some detail))

/-- The result construction of `get_douyin_media`, with every browser/network
interaction an oracle parameter: `redirect` the short-URL lookup, `intercept`
the intercepted detail payload of the video branch, `direct` the
`_call_detail_api` payload, `note_resp` / `unknown_note` the note-API
payloads, `listen` the passively captured payload of the unknown branch,
`dom_images` / `dom_videos` the outputs of the DOM extractors, `final_url`
the page URL after navigation. -/
def get_douyin_media_core
    (redirect : String → Option String) (url : String)
    (intercept direct note_resp listen unknown_note : Option Detail)
    (dom_images dom_videos : List String) (final_url : String) :
    Option ExtractionResult :=
  let resolved := resolve_short_url redirect url
  match findVideoId resolved with
  | some _ =>
    (match parse_video_detail intercept with
     | some r => some r
     | none => parse_video_detail direct)
  | none =>
    match findNoteId resolved with
    | some _ =>
      (match noteApiResult note_resp with
       | some r => some r
       | none => noteDomFallback dom_images dom_videos)
    | none =>
      if strContains final_url "/video/" then
        match unknownFound listen with
        | some (u, cov, md) =>
          some { title := md.title, author := md.author, author_id := md.author_id
               , cover := md.cover, rtype := "video"
               , items := [MediaItem.video u cov] }
        | none =>
          match findVideoId final_url with
          | some _ => parse_video_detail direct
          | none => none
      else if strContains final_url "/note/" then
        match findNoteId final_url with
        | some _ => noteApiResult unknown_note
        | none => none
      else none

/-! ## Pagination (douyin_user_phaser.py) -/

/-- The `author` field of an aweme list item (`none` models a falsy dict). -/
structure AuthorRaw where
  nickname : String
  sec_uid : String
  uid : String
  avatar_urls : List String
deriving DecidableEq

/-- One `aweme_list` item, with the fields the code reads.  An absent or
falsy `aweme_id` is modelled as `""`, an absent/falsy `create_time` as `0`,
a falsy `images` value as `images_present = false`. -/
structure AwemeItem where
  aweme_id : String
  desc : String
  images_present : Bool
  is_top : Bool
  create_time : Nat
  author : Option AuthorRaw
deriving DecidableEq

/-- The work dict built by `_parse_aweme_item` (douyin_user_phaser.py 253-279).
The optional `is_top` / `create_time` keys are kept as the flag/number. -/
structure Work where
  aweme_id : String
  wtype : String
  desc : String
  share_url : String
  is_top : Bool
  create_time : Nat
deriving DecidableEq

/-- `_parse_aweme_item(item)`. -/
def parse_aweme_item (item : AwemeItem) : Work :=
  { aweme_id := item.aweme_id
  , wtype := if item.images_present then "note" else "video"
  , share_url :=
      (if item.images_present then "https://www.douyin.com/note/"
       else "https://www.douyin.com/video/") ++ item.aweme_id
  , desc := item.desc
  , is_top := item.is_top
  , create_time := item.create_time }

/-- The user info extracted from an item's author (douyin_user_phaser.py
282-293); `none` models the empty dict returned for a falsy author. -/
structure UserItemInfo where
  nickname : String
  sec_uid : String
  uid : String
  avatar : String
deriving DecidableEq

/-- `_extract_user_info_from_item(item)`. -/
def extract_user_info_from_item (item : AwemeItem) : Option UserItemInfo :=
  item.author.map (fun a =>
    { nickname := a.nickname, sec_uid := a.sec_uid, uid := a.uid
    , avatar := a.avatar_urls.headD "" })

/-- One XHR pagination response: `err` models a falsy result or one carrying
an `_error` key; `ok` carries `aweme_list or []`, `bool(has_more)` and
`max_cursor` (default 0). -/
inductive XhrResp where
  | err
  | ok (aweme_list : List AwemeItem) (has_more : Bool) (max_cursor : Nat)
deriving DecidableEq

/-- The accumulator of the per-page dedup loop of `_try_xhr_pagination`. -/
structure XAcc where
  works : List Work
  seen : List String
  batch : Nat
  ui : Option UserItemInfo
deriving DecidableEq

/-- One item of the dedup loop (douyin_user_phaser.py 560-569): keep the item
only when its `aweme_id` is truthy and unseen; fill `user_info` once. -/
def xhrAddItem (acc : XAcc) (item : AwemeItem) : XAcc :=
  if item.aweme_id ≠ "" ∧ item.aweme_id ∉ acc.seen then
    { works := acc.works ++ [parse_aweme_item item]
    , seen := item.aweme_id :: acc.seen
    , batch := acc.batch + 1
    , ui := match acc.ui with
        | some i => some i
        | none => extract_user_info_from_item item }
  else acc

/-- The loop state of `_try_xhr_pagination`. -/
structure XhrState where
  all_works : List Work
  seen_ids : List String
  user_info : Option UserItemInfo
  max_cursor : Nat
  has_more : Bool
  page_num : Nat
  empty_pages : Nat
deriving DecidableEq

/-- The initial state of the XHR pagination loop. -/
def xhrS0 : XhrState :=
  { all_works := [], seen_ids := [], user_info := none
  , max_cursor := 0, has_more := true, page_num := 0, empty_pages := 0 }

/-- Python truthiness test `max_works and n >= max_works`. -/
def mwReached (mw : Option Nat) (n : Nat) : Bool :=
  match mw with
  | none => false
  | some m => m != 0 && decide (n ≥ m)

/-- The continuation condition of the XHR loop (`while has_more and
empty_pages < MAX_EMPTY` with the leading `max_works` break). -/
def xhrGuard (mw : Option Nat) (s : XhrState) : Bool :=
  s.has_more && decide (s.empty_pages < 3) && !mwReached mw s.all_works.length

/-- One iteration body of the XHR loop, given this fetch's response. -/
def xhrStep (resp : XhrResp) (s : XhrState) : XhrState :=
  match resp with
  | XhrResp.err =>
    { s with page_num := s.page_num + 1, empty_pages := s.empty_pages + 1 }
  | XhrResp.ok l hm cur =>
    let acc := l.foldl xhrAddItem
      { works := s.all_works, seen := s.seen_ids, batch := 0, ui := s.user_info }
    { all_works := acc.works
    , seen_ids := acc.seen
    , user_info := acc.ui
    , max_cursor := if cur ≠ 0 then cur else s.max_cursor
    , has_more := hm
    , page_num := s.page_num + 1
    , empty_pages := if acc.batch = 0 then s.empty_pages + 1 else 0 }

/-- The XHR loop with fuel: the i-th fetch receives `responses i`.  After the
guard fails the state is returned unchanged. -/
def xhrRunAux (responses : Nat → XhrResp) (mw : Option Nat) : Nat → XhrState → XhrState
  | 0, s => s
  | n + 1, s =>
    if xhrGuard mw s then xhrRunAux responses mw n (xhrStep (responses s.page_num) s)
    else s

/-- The XHR loop run from the initial state. -/
def xhrRun (responses : Nat → XhrResp) (mw : Option Nat) (n : Nat) : XhrState :=
  xhrRunAux responses mw n xhrS0

/-- A user-info dict with optional keys, as the merged `result["user"]` value
(`none` = key absent).  `aweme_count`'s outer option is key presence, the
inner one the possibly-`None` stored value. -/
structure UserDict where
  nickname : Option String
  sec_uid : Option String
  uid : Option String
  avatar : Option String
  signature : Option String
  aweme_count : Option (Option Int)
deriving DecidableEq

/-- The dict corresponding to the pagination loop's `user_info` value. -/
def userDictOfItem : Option UserItemInfo → UserDict
  | none =>
    { nickname := none, sec_uid := none, uid := none, avatar := none
    , signature := none, aweme_count := none }
  | some i =>
    { nickname := some i.nickname, sec_uid := some i.sec_uid, uid := some i.uid
    , avatar := some i.avatar, signature := none, aweme_count := none }

/-- The result dict of a pagination strategy. -/
structure PagResult where
  user : UserDict
  works_count : Nat
  works : List Work
deriving DecidableEq

/-- The epilogue of `_try_xhr_pagination` (douyin_user_phaser.py 583-593):
truncate to `max_works` when active and exceeded, `None` when no works. -/
def xhrFinish (mw : Option Nat) (s : XhrState) : Option PagResult :=
  let works :=
    match mw with
    | some m => if m ≠ 0 ∧ m < s.all_works.length then s.all_works.take m else s.all_works
    | none => s.all_works
  if works = [] then none
  else some { user := userDictOfItem s.user_info
            , works_count := works.length, works := works }

/-- One response of the direct post-list API: `err` models a falsy payload,
`badStatus` a non-zero `status_code`, and `ok` carries the possibly absent
`aweme_list`, `has_more` and `max_cursor`. -/
inductive ApiResp where
  | err
  | badStatus
  | ok (aweme_list : Option (List AwemeItem)) (has_more : Bool) (max_cursor : Nat)
deriving DecidableEq

/-- The accumulator of the append loop of `_try_api_approach`. -/
structure AAcc where
  works : List Work
  ui : Option UserItemInfo
deriving DecidableEq

/-- One item of the append loop (douyin_user_phaser.py 363-366): no dedup,
every item is appended. -/
def apiAddItem (acc : AAcc) (item : AwemeItem) : AAcc :=
  { works := acc.works ++ [parse_aweme_item item]
  , ui := match acc.ui with
      | some i => some i
      | none => extract_user_info_from_item item }

/-- The loop state of `_try_api_approach`. -/
structure ApiState where
  all_works : List Work
  user_info : Option UserItemInfo
  max_cursor : Nat
  page_num : Nat
deriving DecidableEq

/-- The initial state of the direct-API loop. -/
def apiS0 : ApiState :=
  { all_works := [], user_info := none, max_cursor := 0, page_num := 0 }

/-- One iteration of `_try_api_approach` (douyin_user_phaser.py 333-377):
`inl` continues the loop, `inr` is a `break`/`return` with the final state. -/
def apiIterate (resp : ApiResp) (mw : Option Nat) (s : ApiState) : ApiState ⊕ ApiState :=
  match resp with
  | ApiResp.err => Sum.inr { s with page_num := s.page_num + 1 }
  | ApiResp.badStatus => Sum.inr { s with page_num := s.page_num + 1 }
  | ApiResp.ok none _ _ => Sum.inr { s with page_num := s.page_num + 1 }
  | ApiResp.ok (some []) _ _ => Sum.inr { s with page_num := s.page_num + 1 }
  | ApiResp.ok (some (x :: xs)) hm cur =>
    let acc := (x :: xs).foldl apiAddItem { works := s.all_works, ui := s.user_info }
    let s2 : ApiState :=
      { all_works := acc.works, user_info := acc.ui
      , max_cursor := cur, page_num := s.page_num + 1 }
    match mw with
    | some m =>
      if m ≠ 0 ∧ m ≤ acc.works.length then
        Sum.inr { s2 with all_works := acc.works.take m }
      else if hm then Sum.inl s2 else Sum.inr s2
    | none => if hm then Sum.inl s2 else Sum.inr s2

/-- The direct-API loop with fuel; the boolean records whether the loop has
reached one of its own exits within the fuel. -/
def apiRunAux (responses : Nat → ApiResp) (mw : Option Nat) :
    Nat → ApiState → ApiState × Bool
  | 0, s => (s, false)
  | n + 1, s =>
    match apiIterate (responses s.page_num) mw s with
    | Sum.inl s2 => apiRunAux responses mw n s2
    | Sum.inr s2 => (s2, true)

/-- The epilogue of `_try_api_approach` (douyin_user_phaser.py 379-386). -/
def apiFinish (s : ApiState) : Option PagResult :=
  if s.all_works = [] then none
  else some { user := userDictOfItem s.user_info
            , works_count := s.all_works.length, works := s.all_works }

/-! ## User-info merge in `get_all_user_works` (douyin_user_phaser.py 602-669) -/

/-- The dict returned by `_extract_user_info_from_profile` when the profile
payload carries a truthy user (douyin_user_phaser.py 296-311). -/
structure ProfileInfo where
  nickname : String
  sec_uid : String
  uid : String
  avatar : String
  signature : String
  aweme_count : Option Int
deriving DecidableEq

/-- Python truthiness of an optional optional integer value. -/
def truthyI : Option (Option Int) → Bool
  | some (some k) => k != 0
  | _ => false

/-- The merge `{**profile_info, **{k: v for k, v in result["user"].items()
if v}}`: the profile dict first, overlaid by the truthy entries of the
item-derived dict. -/
def mergeUser (p : ProfileInfo) (u : UserDict) : UserDict :=
  { nickname := if truthyS u.nickname then u.nickname else some p.nickname
  , sec_uid := if truthyS u.sec_uid then u.sec_uid else some p.sec_uid
  , uid := if truthyS u.uid then u.uid else some p.uid
  , avatar := if truthyS u.avatar then u.avatar else some p.avatar
  , signature := if truthyS u.signature then u.signature else some p.signature
  , aweme_count := if truthyI u.aweme_count then u.aweme_count else some p.aweme_count }

/-- `result["user"] = {**profile_info, ...}` guarded by `if profile_info:`. -/
def apply_profile_merge (profile_info : Option ProfileInfo) (r : PagResult) : PagResult :=
  match profile_info with
  | none => r
  | some p => { r with user := mergeUser p r.user }

/-- The fallback half of `get_all_user_works`: use the direct-API result when
it is truthy with truthy works, else fail. -/
def userWorksFallback (profile_info : Option ProfileInfo)
    (api_result : Option PagResult) : Option PagResult :=
  match api_result with
  | some r => if r.works ≠ [] then some (apply_profile_merge profile_info r) else none
  | none => none

/-- The strategy orchestration and merge of `get_all_user_works`, over the
profile info and the two strategies' outputs. -/
def get_all_user_works_core (profile_info : Option ProfileInfo)
    (xhr_result api_result : Option PagResult) : Option PagResult :=
  match xhr_result with
  | some r =>
    if r.works ≠ [] then some (apply_profile_merge profile_info r)
    else userWorksFallback profile_info api_result
  | none => userWorksFallback profile_info api_result

/-! ## Concrete payloads used by counterexamples and witnesses -/

/-- An mp4 variant of resolution 4 whose candidate URL list is empty. -/
def cexV1 : BitRateVariant :=
  { format := "mp4", bit_rate := 100, width := 2, height := 2, url_list := [] }

/-- An mp4 variant of resolution 1 with one candidate URL. -/
def cexV3 : BitRateVariant :=
  { format := "mp4", bit_rate := 0, width := 1, height := 1
  , url_list := ["https://b.example/x"] }

/-- A video payload whose highest-resolution mp4 variant has no URLs. -/
def cexVideo : VideoDetail :=
  { bit_rate := some [cexV1, cexV3], play_addr_urls := []
  , cover := none, origin_cover_urls := [] }

/-- First witness variant: resolution 4, bitrate 5, a douyinvod URL second. -/
def wV1 : BitRateVariant :=
  { format := "mp4", bit_rate := 5, width := 2, height := 2
  , url_list := ["u1", "https://x.douyinvod.com/1"] }

/-- Second witness variant: resolution 1, bitrate 9. -/
def wV2 : BitRateVariant :=
  { format := "mp4", bit_rate := 9, width := 1, height := 1, url_list := ["u2"] }

/-- A witness video payload with two eligible variants. -/
def wVideo : VideoDetail :=
  { bit_rate := some [wV1, wV2], play_addr_urls := []
  , cover := none, origin_cover_urls := [] }

/-- A note image record with no `url_list` and no video rendition. -/
def cexNoteImages : List ImageRecord := [{ url_list := none, video_urls := none }]

/-- A note image record yielding a plain image item. -/
def wNoteRec : ImageRecord :=
  { url_list := some ["https://p.douyinpic.com/a"], video_urls := none }

/-- An image record whose embedded video list starts with a marker-free URL
followed by a douyinvod URL. -/
def cexTierRec : ImageRecord :=
  { url_list := some ["img"]
  , video_urls := some ["https://first.example/a", "https://v.douyinvod.com/b"] }

/-- A witness video-candidate list led by a v3-web.douyinvod URL. -/
def wTierList : List String := ["https://v3-web.douyinvod.com/a", "b"]

/-- Witness URLs for the DOM dedup: two sharing a base, one distinct. -/
def wDedupUrls : List String :=
  [ "https://p.douyinpic.com/img1~c5?sig=1"
  , "https://p.douyinpic.com/img1~c5?sig=2"
  , "https://p.douyinpic.com/img2?x" ]

/-- An aweme list item with id `idA` and no author. -/
def cexAwemeA : AwemeItem :=
  { aweme_id := "idA", desc := "d", images_present := false
  , is_top := false, create_time := 0, author := none }

/-- The work parsed from `cexAwemeA`. -/
def cexWorkA : Work := parse_aweme_item cexAwemeA

/-- A direct-API response stream repeating the same item on two pages. -/
def cexApiResponses : Nat → ApiResp := fun i =>
  if i = 0 then ApiResp.ok (some [cexAwemeA]) true 5
  else ApiResp.ok (some [cexAwemeA]) false 5

/-- A direct-API stream repeating a non-empty list forever with `has_more`
true and a never-advancing cursor. -/
def cexLoopResponses : Nat → ApiResp := fun _ => ApiResp.ok (some [cexAwemeA]) true 0

/-- A witness XHR stream delivering one item per page. -/
def wXhrResponses : Nat → XhrResp := fun _ => XhrResp.ok [cexAwemeA] true 0

/-- The pagination result of one productive XHR page. -/
def wPagR : PagResult :=
  { user := userDictOfItem none, works_count := 1, works := [cexWorkA] }

/-- A profile info with non-empty identity fields. -/
def cexProfile : ProfileInfo :=
  { nickname := "ProfileName", sec_uid := "PS", uid := "PU", avatar := "PA"
  , signature := "sig", aweme_count := some 3 }

/-- An item-derived user dict with non-empty identity fields. -/
def cexItemUser : UserDict :=
  userDictOfItem (some { nickname := "ItemName", sec_uid := "IS", uid := "IU", avatar := "IA" })

/-- A pagination result carrying the item-derived user dict. -/
def cexPagR : PagResult :=
  { user := cexItemUser, works_count := 1, works := [cexWorkA] }

/-- One DOM-extracted video URL with no matching DOM image. -/
def cexDomVideos : List String := ["https://v3-web.douyinvod.com/video/tos/a"]

/-- A note detail payload with one plain image record. -/
def wNoteDetail : Detail :=
  { desc := "t", author := some ("auth", "sid"), video := none
  , images := some [{ url_list := some ["https://p.douyinpic.com/a"], video_urls := none }] }

/-- The extraction result of the witness note payload. -/
def wNoteResult : ExtractionResult :=
  { title := "t", author := "auth", author_id := "sid"
  , cover := "https://p.douyinpic.com/a", rtype := "images"
  , items := [MediaItem.image "https://p.douyinpic.com/a"] }

/-! ## Theorems -/

/-- Claim C9: a URL containing neither short-link marker is returned unchanged; a
failed redirect lookup (any exception) or a Location header yielding neither
a `/video/` nor a `/note/` id also returns the input unchanged. -/
theorem short_url_resolution_ok (redirect : String → Option String) (url : String) :
    ((strContains url "v.douyin.com" = false ∧ strContains url "/share/" = false) →
      resolve_short_url redirect url = url) ∧
    (redirect url = none → resolve_short_url redirect url = url) ∧
    (∀ loc, redirect url = some loc → findVideoId loc = none → findNoteId loc = none →
      resolve_short_url redirect url = url) := by
  refine ⟨?_, ?_, ?_⟩
  · rintro ⟨h1, h2⟩
    simp [resolve_short_url, h1, h2]
  · intro h
    cases hb : (strContains url "v.douyin.com" || strContains url "/share/") with
    | false => simp [resolve_short_url, hb]
    | true => simp [resolve_short_url, hb, h]
  · intro loc hloc hv hn
    cases hb : (strContains url "v.douyin.com" || strContains url "/share/") with
    | false => simp [resolve_short_url, hb]
    | true => simp [resolve_short_url, hb, hloc, hv, hn]

/-- Witness for C9 at a concrete short URL with a failing lookup. -/
theorem short_url_resolution_ok_witness :
    resolve_short_url (fun _ => none) "https://v.douyin.com/abc" = "https://v.douyin.com/abc" :=
  (short_url_resolution_ok (fun _ => none) "https://v.douyin.com/abc").2.1 rfl

/-- The XHR loop cannot distinguish `max_works = 0` from `max_works = None`. -/
theorem xhrRunAux_zero_eq_none (responses : Nat → XhrResp) :
    ∀ (n : Nat) (s : XhrState),
      xhrRunAux responses (some 0) n s = xhrRunAux responses none n s := by
  intro n
  induction n with
  | zero => intro s; rfl
  | succ n ih =>
    intro s
    have hg : xhrGuard (some 0) s = xhrGuard none s := rfl
    rw [xhrRunAux, xhrRunAux, hg]
    split
    · exact ih _
    · rfl

/-- The XHR epilogue cannot distinguish `max_works = 0` from `None`. -/
theorem xhrFinish_zero_eq_none (s : XhrState) :
    xhrFinish (some 0) s = xhrFinish none s := by
  simp [xhrFinish]

/-- One direct-API iteration cannot distinguish `max_works = 0` from `None`. -/
theorem apiIterate_zero_eq_none (resp : ApiResp) (s : ApiState) :
    apiIterate resp (some 0) s = apiIterate resp none s := by
  cases resp with
  | err => rfl
  | badStatus => rfl
  | ok l hm cur =>
    cases l with
    | none => rfl
    | some xs =>
      cases xs with
      | nil => rfl
      | cons x t => simp [apiIterate]

/-- The direct-API loop cannot distinguish `max_works = 0` from `None`. -/
theorem apiRunAux_zero_eq_none (responses : Nat → ApiResp) :
    ∀ (n : Nat) (s : ApiState),
      apiRunAux responses (some 0) n s = apiRunAux responses none n s := by
  intro n
  induction n with
  | zero => intro s; rfl
  | succ n ih =>
    intro s
    rw [apiRunAux, apiRunAux, apiIterate_zero_eq_none]
    split
    · exact ih _
    · rfl

/-- Claim C10: `max_works = 0` is treated as "no limit": both pagination loops and
the XHR epilogue behave exactly as with `max_works = None`, on every
response stream, fuel and state. -/
theorem max_works_zero_ok :
    (∀ (responses : Nat → XhrResp) (n : Nat) (s : XhrState),
      xhrRunAux responses (some 0) n s = xhrRunAux responses none n s) ∧
    (∀ (responses : Nat → XhrResp) (n : Nat),
      xhrFinish (some 0) (xhrRun responses (some 0) n) =
        xhrFinish none (xhrRun responses none n)) ∧
    (∀ (responses : Nat → ApiResp) (n : Nat) (s : ApiState),
      apiRunAux responses (some 0) n s = apiRunAux responses none n s) := by
  refine ⟨fun responses n s => xhrRunAux_zero_eq_none responses n s, ?_, ?_⟩
  · intro responses n
    rw [xhrFinish_zero_eq_none, xhrRun, xhrRun, xhrRunAux_zero_eq_none]
  · exact fun responses n s => apiRunAux_zero_eq_none responses n s

/-- Claim C5 counterexample: with a candidate list whose first entry lacks both
markers while a later entry carries `douyinvod`, the code returns the first
entry, not the later douyinvod entry. -/
theorem note_video_tiers_claim_counterexample :
    noteVideoUrl cexTierRec = some "https://first.example/a" ∧
    strContains "https://first.example/a" "douyinvod" = false ∧
    strContains "https://v.douyinvod.com/b" "douyinvod" = true ∧
    cexTierRec.video_urls = some ["https://first.example/a", "https://v.douyinvod.com/b"] := by
  refine ⟨by decide, by decide, by decide, rfl⟩

/-- Claim C5 (amended): the note video-URL choice takes the first URL containing
`v3-web.douyinvod` when one exists; otherwise it takes the first URL of the
list, and consults the weaker `douyinvod` tier only when that first URL is
the empty string. -/
theorem note_video_tiers_amended (l : List String) (h : l ≠ []) :
    (∀ u, l.find? (fun s => strContains s "v3-web.douyinvod") = some u →
      note_video_url_from l = some u) ∧
    (l.find? (fun s => strContains s "v3-web.douyinvod") = none →
      (l.headD "" ≠ "" → note_video_url_from l = l.head?) ∧
      (l.headD "" = "" → note_video_url_from l = select_best_url l "douyinvod")) := by
  constructor
  · intro u hu
    have hcontains := List.find?_some hu
    simp only [] at hcontains
    have hne : u ≠ "" := by
      intro he
      rw [he] at hcontains
      exact absurd hcontains (by decide)
    simp [note_video_url_from, select_best_url, hu, truthyS, hne]
  · intro hnone
    cases l with
    | nil => exact absurd rfl h
    | cons x t =>
      constructor
      · intro hx
        simp at hx
        simp [note_video_url_from, select_best_url, hnone, truthyS, hx]
      · intro hx
        simp at hx
        subst hx
        simp [note_video_url_from, select_best_url, hnone, truthyS]

/-- Witness for C5: the strong-marker entry is selected when present. -/
theorem note_video_tiers_amended_witness :
    note_video_url_from wTierList = some "https://v3-web.douyinvod.com/a" :=
  (note_video_tiers_amended wTierList (by decide)).1 _ (by decide)

/-- A record yields an item exactly when its selected image URL is truthy. -/
theorem itemOf_isSome (r : ImageRecord) :
    (itemOf r).isSome = truthyS (imageUrlOf r) := by
  unfold itemOf
  cases hv : noteVideoUrl r with
  | none =>
    cases hi : imageUrlOf r with
    | none => simp [truthyS]
    | some i =>
      by_cases h1 : i = "" <;> simp [truthyS, h1]
  | some v =>
    cases hi : imageUrlOf r with
    | none => simp [truthyS]
    | some i =>
      by_cases h1 : i = "" <;> by_cases h2 : v = "" <;> simp [truthyS, h1, h2]

/-- The length of a `filterMap` counts the inputs mapped to `some`. -/
theorem length_filterMap_eq_countP {α β : Type} (f : α → Option β) :
    ∀ l : List α, (l.filterMap f).length = l.countP (fun a => (f a).isSome) := by
  intro l
  induction l with
  | nil => rfl
  | cons a t ih =>
    cases hfa : f a <;> simp [List.filterMap_cons, List.countP_cons, hfa, ih]

/-- Dropping the inputs mapped to `none` does not change a `filterMap`. -/
theorem filterMap_filter_isSome {α β : Type} (f : α → Option β) (p : α → Bool)
    (hp : ∀ a, (f a).isSome = p a) :
    ∀ l : List α, (l.filter p).filterMap f = l.filterMap f := by
  intro l
  induction l with
  | nil => rfl
  | cons a t ih =>
    cases hfa : f a with
    | none =>
      have hpa : p a = false := by rw [← hp a, hfa]; rfl
      simp [List.filter_cons, List.filterMap_cons, hpa, hfa, ih]
    | some b =>
      have hpa : p a = true := by rw [← hp a, hfa]; rfl
      simp [List.filter_cons, List.filterMap_cons, hpa, hfa, ih]

/-- Claim C4 counterexample: a one-record images list with no `url_list` yields an
empty items list, so the output length differs from the input length. -/
theorem note_reconciliation_claim_counterexample :
    (extract_note_items cexNoteImages).length = 0 ∧ cexNoteImages.length = 1 :=
  ⟨rfl, rfl⟩

/-- Claim C4 (amended): the items list has one entry per input record with a truthy
selected image URL, produced in input order by `itemOf` (records without a
usable image URL are dropped), and a record with no embedded video rendition
(or an empty rendition URL list) never yields an animated item. -/
theorem note_reconciliation_amended (images : List ImageRecord) :
    (extract_note_items images).length =
      images.countP (fun r => truthyS (imageUrlOf r)) ∧
    extract_note_items images =
      (images.filter (fun r => truthyS (imageUrlOf r))).filterMap itemOf ∧
    (∀ r : ImageRecord, (itemOf r).isSome = truthyS (imageUrlOf r)) ∧
    (∀ r m, itemOf r = some m → (r.video_urls = none ∨ r.video_urls = some []) →
      ∀ iu vu, m ≠ MediaItem.animated iu vu) := by
  refine ⟨?_, ?_, itemOf_isSome, ?_⟩
  · rw [extract_note_items, length_filterMap_eq_countP]
    exact List.countP_congr (fun r _ => by rw [itemOf_isSome])
  · rw [extract_note_items, filterMap_filter_isSome itemOf _ itemOf_isSome]
  · intro r m hm hv iu vu
    have hnv : noteVideoUrl r = none := by
      rcases hv with h | h <;> simp [noteVideoUrl, h]
    rw [itemOf, hnv] at hm
    cases hi : imageUrlOf r with
    | none => rw [hi] at hm; exact absurd hm (by simp)
    | some i =>
      rw [hi] at hm
      by_cases h1 : i = ""
      · simp [h1] at hm
      · simp [h1] at hm
        intro he
        subst he
        simp at hm

/-- Witness for C4: a record with an image URL and no video rendition yields
a plain image item, which is not an animated item. -/
theorem note_reconciliation_amended_witness :
    itemOf wNoteRec = some (MediaItem.image "https://p.douyinpic.com/a") ∧
    MediaItem.image "https://p.douyinpic.com/a" ≠ MediaItem.animated none "x" :=
  ⟨by decide,
   (note_reconciliation_amended []).2.2.2 wNoteRec _ (by decide) (Or.inl rfl) none "x"⟩

/-- Claim C6 counterexample: with both the profile nickname and the item-derived
nickname non-empty, `get_all_user_works` returns the item-derived value, not
the profile-sourced one. -/
theorem user_merge_claim_counterexample :
    cexProfile.nickname = "ProfileName" ∧
    cexPagR.user.nickname = some "ItemName" ∧
    (match get_all_user_works_core (some cexProfile) (some cexPagR) none with
     | some r => r.user.nickname
     | none => none) = some "ItemName" ∧
    "ItemName" ≠ "ProfileName" := by
  refine ⟨rfl, rfl, rfl, by decide⟩

/-- Claim C6 (amended): in the merged user dict, item-derived non-empty fields take
precedence; profile values only fill fields the item-derived info left empty
or absent (and profile-only fields such as signature and the declared work
count survive untouched); the orchestrator applies exactly this merge to the
winning strategy's result. -/
theorem user_merge_amended (p : ProfileInfo) (u : UserDict) :
    ((truthyS u.nickname = true → (mergeUser p u).nickname = u.nickname) ∧
     (truthyS u.nickname = false → (mergeUser p u).nickname = some p.nickname) ∧
     (truthyS u.sec_uid = true → (mergeUser p u).sec_uid = u.sec_uid) ∧
     (truthyS u.sec_uid = false → (mergeUser p u).sec_uid = some p.sec_uid) ∧
     (truthyS u.uid = true → (mergeUser p u).uid = u.uid) ∧
     (truthyS u.uid = false → (mergeUser p u).uid = some p.uid) ∧
     (truthyS u.avatar = true → (mergeUser p u).avatar = u.avatar) ∧
     (truthyS u.avatar = false → (mergeUser p u).avatar = some p.avatar) ∧
     (truthyS u.signature = false → (mergeUser p u).signature = some p.signature) ∧
     (truthyI u.aweme_count = false → (mergeUser p u).aweme_count = some p.aweme_count)) ∧
    (∀ (r : PagResult) (api : Option PagResult), r.works ≠ [] →
      get_all_user_works_core (some p) (some r) api =
        some { user := mergeUser p r.user
             , works_count := r.works_count, works := r.works }) := by
  constructor
  · refine ⟨?_, ?_, ?_, ?_, ?_, ?_, ?_, ?_, ?_, ?_⟩ <;>
      intro h <;> simp [mergeUser, h]
  · intro r api hr
    simp [get_all_user_works_core, apply_profile_merge, hr]

/-- Witness for C6 at concrete profile and pagination values. -/
theorem user_merge_amended_witness :
    get_all_user_works_core (some cexProfile) (some cexPagR) none =
      some { user := mergeUser cexProfile cexPagR.user
           , works_count := cexPagR.works_count, works := cexPagR.works } :=
  (user_merge_amended cexProfile cexPagR.user).2 cexPagR none (by decide)

/-- Unfolding equation for the empty case of `keepFirstByBase`. -/
theorem keepFirstByBase_nil : keepFirstByBase [] = [] := by
  rw [keepFirstByBase]

/-- Unfolding equation for the cons case of `keepFirstByBase`. -/
theorem keepFirstByBase_cons (u : String) (rest : List String) :
    keepFirstByBase (u :: rest) =
      u :: keepFirstByBase (rest.filter (fun v => !(baseOf v == baseOf u))) := by
  rw [keepFirstByBase]

/-- The dedup loop equals the keep-first spec on the not-yet-seen URLs. -/
theorem dedupImagesAux_eq_keepFirst :
    ∀ (l : List String) (seen : List String),
      dedupImagesAux seen l =
        keepFirstByBase (l.filter (fun u => decide (baseOf u ∉ seen))) := by
  intro l
  induction l with
  | nil => intro seen; rw [List.filter_nil, keepFirstByBase_nil]; rfl
  | cons u rest ih =>
    intro seen
    by_cases h : baseOf u ∈ seen
    · rw [dedupImagesAux, if_pos h, List.filter_cons, if_neg (by simp [h]), ih]
    · rw [dedupImagesAux, if_neg h, List.filter_cons, if_pos (by simp [h]),
        keepFirstByBase_cons, ih (baseOf u :: seen), List.filter_filter]
      congr 1
      congr 1
      apply List.filter_congr
      intro v _
      by_cases h1 : baseOf v = baseOf u <;> by_cases h2 : baseOf v ∈ seen <;>
        simp [h1, h2, List.mem_cons]

/-- The dedup loop output is a sublist of its input (order preserved). -/
theorem dedupImagesAux_sublist :
    ∀ (l seen : List String), (dedupImagesAux seen l).Sublist l := by
  intro l
  induction l with
  | nil => intro seen; exact List.Sublist.refl []
  | cons u rest ih =>
    intro seen
    by_cases h : baseOf u ∈ seen
    · rw [dedupImagesAux, if_pos h]
      exact (ih seen).cons u
    · rw [dedupImagesAux, if_neg h]
      exact (ih (baseOf u :: seen)).cons₂ u

/-- Every URL kept by the dedup loop has a base outside the seen set. -/
theorem dedupImagesAux_base_not_seen :
    ∀ (l seen : List String) (v : String),
      v ∈ dedupImagesAux seen l → baseOf v ∉ seen := by
  intro l
  induction l with
  | nil => intro seen v hv; exact absurd hv (by simp [dedupImagesAux])
  | cons u rest ih =>
    intro seen v hv
    by_cases h : baseOf u ∈ seen
    · rw [dedupImagesAux, if_pos h] at hv
      exact ih seen v hv
    · rw [dedupImagesAux, if_neg h] at hv
      rcases List.mem_cons.mp hv with h1 | h1
      · rw [h1]; exact h
      · have := ih (baseOf u :: seen) v h1
        exact fun hc => this (List.mem_cons_of_mem _ hc)

/-- The dedup loop keeps at most one URL per base. -/
theorem dedupImagesAux_pairwise :
    ∀ (l seen : List String),
      (dedupImagesAux seen l).Pairwise (fun a b => baseOf a ≠ baseOf b) := by
  intro l
  induction l with
  | nil => intro seen; simp [dedupImagesAux]
  | cons u rest ih =>
    intro seen
    by_cases h : baseOf u ∈ seen
    · rw [dedupImagesAux, if_pos h]; exact ih seen
    · rw [dedupImagesAux, if_neg h]
      refine List.Pairwise.cons ?_ (ih (baseOf u :: seen))
      intro b hb heq
      exact dedupImagesAux_base_not_seen rest (baseOf u :: seen) b hb
        (by rw [← heq]; exact List.mem_cons_self _ _)

/-- Every input URL's base is represented in the dedup loop output. -/
theorem dedupImagesAux_represents :
    ∀ (l seen : List String) (u : String), u ∈ l →
      baseOf u ∈ seen ∨ ∃ v ∈ dedupImagesAux seen l, baseOf v = baseOf u := by
  intro l
  induction l with
  | nil => intro seen u hu; exact absurd hu (by simp)
  | cons w rest ih =>
    intro seen u hu
    by_cases h : baseOf w ∈ seen
    · rw [dedupImagesAux, if_pos h]
      rcases List.mem_cons.mp hu with h1 | h1
      · left; rw [h1]; exact h
      · exact ih seen u h1
    · rw [dedupImagesAux, if_neg h]
      rcases List.mem_cons.mp hu with h1 | h1
      · right; exact ⟨w, List.mem_cons_self _ _, by rw [h1]⟩
      · rcases ih (baseOf w :: seen) u h1 with h2 | ⟨v, hv, hveq⟩
        · rcases List.mem_cons.mp h2 with h3 | h3
          · right; exact ⟨w, List.mem_cons_self _ _, h3.symm⟩
          · left; exact h3
        · right; exact ⟨v, List.mem_cons_of_mem _ hv, hveq⟩

/-- Claim C8: the DOM image dedup equals the keep-first-per-base spec, keeps at
most one URL per base (base = the URL cut at the first `?`, then at the
first `~`), preserves first-encountered order (the output is a sublist of
the input), and represents every input URL's base. -/
theorem dom_image_dedup_ok (urls : List String) :
    dedup_images urls = keepFirstByBase urls ∧
    (dedup_images urls).Pairwise (fun a b => baseOf a ≠ baseOf b) ∧
    (dedup_images urls).Sublist urls ∧
    ∀ u ∈ urls, ∃ v ∈ dedup_images urls, baseOf v = baseOf u := by
  refine ⟨?_, dedupImagesAux_pairwise urls [], dedupImagesAux_sublist urls [], ?_⟩
  · rw [dedup_images, dedupImagesAux_eq_keepFirst]
    congr 1
    apply List.filter_eq_self.mpr
    intro a _
    simp
  · intro u hu
    rcases dedupImagesAux_represents urls [] u hu with h | h
    · exact absurd h (by simp)
    · exact h

/-- Witness for C8: the second URL shares its base with a kept URL. -/
theorem dom_image_dedup_ok_witness :
    ("https://p.douyinpic.com/img1~c5?sig=2" ∈ wDedupUrls) ∧
    ∃ v ∈ dedup_images wDedupUrls,
      baseOf v = baseOf "https://p.douyinpic.com/img1~c5?sig=2" :=
  ⟨by decide, (dom_image_dedup_ok wDedupUrls).2.2.2 _ (by decide)⟩

/-- Parsing an item preserves its `aweme_id`. -/
theorem parse_aweme_item_id (item : AwemeItem) :
    (parse_aweme_item item).aweme_id = item.aweme_id := rfl

/-- The XHR per-page dedup fold preserves distinctness of work ids and their
containment in the seen set. -/
theorem xhrAdd_preserves :
    ∀ (l : List AwemeItem) (acc : XAcc),
      (acc.works.map Work.aweme_id).Nodup →
      (∀ a ∈ acc.works.map Work.aweme_id, a ∈ acc.seen) →
      (((l.foldl xhrAddItem acc).works.map Work.aweme_id).Nodup ∧
       ∀ a ∈ (l.foldl xhrAddItem acc).works.map Work.aweme_id,
         a ∈ (l.foldl xhrAddItem acc).seen) := by
  intro l
  induction l with
  | nil => intro acc h1 h2; exact ⟨h1, h2⟩
  | cons x t ih =>
    intro acc h1 h2
    rw [List.foldl_cons]
    by_cases hc : x.aweme_id ≠ "" ∧ x.aweme_id ∉ acc.seen
    · rw [xhrAddItem, if_pos hc]
      apply ih
      · rw [List.map_append]
        rw [List.nodup_append]
        refine ⟨h1, List.nodup_singleton _, ?_⟩
        intro a ha hb
        simp [parse_aweme_item_id] at hb
        rw [hb] at ha
        exact hc.2 (h2 _ ha)
      · intro a ha
        rw [List.map_append] at ha
        rcases List.mem_append.mp ha with h | h
        · exact List.mem_cons_of_mem _ (h2 _ h)
        · simp [parse_aweme_item_id] at h
          rw [h]
          exact List.mem_cons_self _ _
    · rw [xhrAddItem, if_neg hc]
      exact ih acc h1 h2

/-- One XHR loop iteration preserves the dedup invariant. -/
theorem xhrStep_preserves (resp : XhrResp) (s : XhrState)
    (h1 : (s.all_works.map Work.aweme_id).Nodup)
    (h2 : ∀ a ∈ s.all_works.map Work.aweme_id, a ∈ s.seen_ids) :
    ((xhrStep resp s).all_works.map Work.aweme_id).Nodup ∧
    ∀ a ∈ (xhrStep resp s).all_works.map Work.aweme_id,
      a ∈ (xhrStep resp s).seen_ids := by
  cases resp with
  | err => exact ⟨h1, h2⟩
  | ok l hm cur =>
    have := xhrAdd_preserves l
      { works := s.all_works, seen := s.seen_ids, batch := 0, ui := s.user_info }
      h1 h2
    exact this

/-- The XHR loop preserves the dedup invariant for any fuel. -/
theorem xhrRunAux_preserves (responses : Nat → XhrResp) (mw : Option Nat) :
    ∀ (n : Nat) (s : XhrState),
      (s.all_works.map Work.aweme_id).Nodup →
      (∀ a ∈ s.all_works.map Work.aweme_id, a ∈ s.seen_ids) →
      (((xhrRunAux responses mw n s).all_works.map Work.aweme_id).Nodup ∧
       ∀ a ∈ (xhrRunAux responses mw n s).all_works.map Work.aweme_id,
         a ∈ (xhrRunAux responses mw n s).seen_ids) := by
  intro n
  induction n with
  | zero => intro s h1 h2; exact ⟨h1, h2⟩
  | succ n ih =>
    intro s h1 h2
    rw [xhrRunAux]
    split
    · have hstep := xhrStep_preserves (responses s.page_num) s h1 h2
      exact ih _ hstep.1 hstep.2
    · exact ⟨h1, h2⟩

/-- Claim C2 (amended): the XHR (primary) strategy's result has pairwise-distinct
`aweme_id`s and `works_count = len(works)`; the direct-API fallback
guarantees only `works_count = len(works)` (it performs no dedup). -/
theorem paginator_dedup_amended :
    (∀ (responses : Nat → XhrResp) (mw : Option Nat) (n : Nat) (r : PagResult),
      xhrFinish mw (xhrRun responses mw n) = some r →
      (r.works.map Work.aweme_id).Nodup ∧ r.works_count = r.works.length) ∧
    (∀ (responses : Nat → ApiResp) (mw : Option Nat) (n : Nat) (r : PagResult),
      apiFinish (apiRunAux responses mw n apiS0).1 = some r →
      r.works_count = r.works.length) := by
  constructor
  · intro responses mw n r h
    have hinv := xhrRunAux_preserves responses mw n xhrS0 (by simp [xhrS0]) (by simp [xhrS0])
    cases mw with
    | none =>
      simp only [xhrFinish, xhrRun] at h
      split at h
      · exact absurd h (by simp)
      · cases h; exact ⟨hinv.1, rfl⟩
    | some m =>
      simp only [xhrFinish, xhrRun] at h
      by_cases hm : m ≠ 0 ∧ m < (xhrRunAux responses (some m) n xhrS0).all_works.length
      · rw [if_pos hm] at h
        split at h
        · exact absurd h (by simp)
        · cases h
          refine ⟨?_, rfl⟩
          rw [List.map_take]
          exact hinv.1.sublist (List.take_sublist m _)
      · rw [if_neg hm] at h
        split at h
        · exact absurd h (by simp)
        · cases h; exact ⟨hinv.1, rfl⟩
  · intro responses mw n r h
    simp only [apiFinish] at h
    split at h
    · exact absurd h (by simp)
    · cases h
      rfl

/-- Claim C2 counterexample: a direct-API response sequence repeating the same
`aweme_id` on two pages makes `get_all_user_works` (falling back to the
direct-API strategy) return a works list with a duplicated id. -/
theorem paginator_dedup_claim_counterexample :
    get_all_user_works_core none none
        (apiFinish (apiRunAux cexApiResponses none 2 apiS0).1) =
      some { user := userDictOfItem none, works_count := 2
           , works := [cexWorkA, cexWorkA] } ∧
    ¬ (([cexWorkA, cexWorkA].map Work.aweme_id).Nodup) := by
  constructor
  · decide
  · decide

/-- Witness for C2: one productive XHR page yields a deduplicated result. -/
theorem paginator_dedup_amended_witness :
    ((wPagR.works.map Work.aweme_id).Nodup ∧ wPagR.works_count = wPagR.works.length) :=
  paginator_dedup_amended.1 wXhrResponses none 1 wPagR (by decide)

/-- On streams of error or empty-list responses the XHR loop's empty-page
counter rises by one per fetch, so the guard fails within the remaining
budget. -/
theorem xhrRunAux_halts_empty (responses : Nat → XhrResp) (mw : Option Nat)
    (hresp : ∀ i, responses i = XhrResp.err ∨ ∃ c, responses i = XhrResp.ok [] true c) :
    ∀ (k : Nat) (s : XhrState), 3 ≤ s.empty_pages + k →
      xhrGuard mw (xhrRunAux responses mw k s) = false := by
  intro k
  induction k with
  | zero =>
    intro s hk
    have : ¬ (s.empty_pages < 3) := by omega
    simp [xhrRunAux, xhrGuard, this]
  | succ k ih =>
    intro s hk
    by_cases hg : xhrGuard mw s = true
    · rw [xhrRunAux, if_pos hg]
      have hstep : (xhrStep (responses s.page_num) s).empty_pages = s.empty_pages + 1 := by
        rcases hresp s.page_num with h | ⟨c, h⟩
        · rw [h]; rfl
        · rw [h]; rfl
      apply ih
      rw [hstep]
      omega
    · rw [xhrRunAux, if_neg hg]
      exact Bool.not_eq_true _ ▸ (by revert hg; cases xhrGuard mw s <;> simp)

/-- Seen-set membership is monotone along the XHR per-page fold. -/
theorem xhrAdd_seen_mono :
    ∀ (l : List AwemeItem) (acc : XAcc) (a : String),
      a ∈ acc.seen → a ∈ (l.foldl xhrAddItem acc).seen := by
  intro l
  induction l with
  | nil => intro acc a h; exact h
  | cons x t ih =>
    intro acc a h
    rw [List.foldl_cons]
    apply ih
    rw [xhrAddItem]
    split
    · exact List.mem_cons_of_mem _ h
    · exact h

/-- After the fold every processed truthy `aweme_id` is in the seen set. -/
theorem xhrAdd_seen_mem :
    ∀ (l : List AwemeItem) (acc : XAcc) (it : AwemeItem),
      it ∈ l → it.aweme_id ≠ "" → it.aweme_id ∈ (l.foldl xhrAddItem acc).seen := by
  intro l
  induction l with
  | nil => intro acc it h; exact absurd h (by simp)
  | cons x t ih =>
    intro acc it hmem hne
    rw [List.foldl_cons]
    rcases List.mem_cons.mp hmem with h | h
    · subst h
      by_cases hc : it.aweme_id ≠ "" ∧ it.aweme_id ∉ acc.seen
      · apply xhrAdd_seen_mono
        rw [xhrAddItem, if_pos hc]
        exact List.mem_cons_self _ _
      · have hin : it.aweme_id ∈ acc.seen := by
          by_cases h2 : it.aweme_id ∈ acc.seen
          · exact h2
          · exact absurd ⟨hne, h2⟩ hc
        apply xhrAdd_seen_mono
        rw [xhrAddItem]
        split
        · exact List.mem_cons_of_mem _ hin
        · exact hin
    · exact ih _ it h hne

/-- When every item of a page is already seen (or has a falsy id), the fold
is the identity. -/
theorem xhrAdd_skip :
    ∀ (l : List AwemeItem) (acc : XAcc),
      (∀ it ∈ l, it.aweme_id = "" ∨ it.aweme_id ∈ acc.seen) →
      l.foldl xhrAddItem acc = acc := by
  intro l
  induction l with
  | nil => intro acc _; rfl
  | cons x t ih =>
    intro acc h
    rw [List.foldl_cons]
    have hx : xhrAddItem acc x = acc := by
      rw [xhrAddItem, if_neg]
      rcases h x (List.mem_cons_self _ _) with h1 | h1
      · intro hc; exact hc.1 h1
      · intro hc; exact hc.2 h1
    rw [hx]
    exact ih acc (fun it hit => h it (List.mem_cons_of_mem _ hit))

/-- On a constant repeated page whose ids are all already seen, the XHR
loop's guard fails within the remaining budget. -/
theorem xhrRunAux_halts_const (l : List AwemeItem) (c : Nat) (mw : Option Nat) :
    ∀ (k : Nat) (s : XhrState),
      (∀ it ∈ l, it.aweme_id = "" ∨ it.aweme_id ∈ s.seen_ids) →
      3 ≤ s.empty_pages + k →
      xhrGuard mw (xhrRunAux (fun _ => XhrResp.ok l true c) mw k s) = false := by
  intro k
  induction k with
  | zero =>
    intro s _ hk
    have : ¬ (s.empty_pages < 3) := by omega
    simp [xhrRunAux, xhrGuard, this]
  | succ k ih =>
    intro s hseen hk
    by_cases hg : xhrGuard mw s = true
    · rw [xhrRunAux, if_pos hg]
      have hfold : (l.foldl xhrAddItem
          { works := s.all_works, seen := s.seen_ids, batch := 0, ui := s.user_info }) =
          { works := s.all_works, seen := s.seen_ids, batch := 0, ui := s.user_info } :=
        xhrAdd_skip l _ hseen
      have hstep : xhrStep (XhrResp.ok l true c) s =
          { all_works := s.all_works, seen_ids := s.seen_ids, user_info := s.user_info
          , max_cursor := if c ≠ 0 then c else s.max_cursor, has_more := true
          , page_num := s.page_num + 1, empty_pages := s.empty_pages + 1 } := by
        rw [xhrStep, hfold]
        rfl
      rw [hstep]
      apply ih
      · exact hseen
      · simp
        omega
    · rw [xhrRunAux, if_neg hg]
      exact Bool.not_eq_true _ ▸ (by revert hg; cases xhrGuard mw s <;> simp)

/-- Claim C3 (amended): on streams of error/empty responses (even with `has_more`
always true) the XHR loop stops within MAX_EMPTY = 3 fetches; a constant
repeated non-empty page (non-advancing cursor included) stops the XHR loop
within 4 fetches because dedup makes repeats non-productive; and the direct
API loop exits at the first error, bad-status, absent or empty list — but
neither loop is bounded on streams that keep supplying fresh ids. -/
theorem paginator_termination_amended :
    (∀ (responses : Nat → XhrResp) (mw : Option Nat),
      (∀ i, responses i = XhrResp.err ∨ ∃ c, responses i = XhrResp.ok [] true c) →
      xhrGuard mw (xhrRun responses mw 3) = false) ∧
    (∀ (l : List AwemeItem) (c : Nat) (mw : Option Nat),
      xhrGuard mw (xhrRun (fun _ => XhrResp.ok l true c) mw 4) = false) ∧
    (∀ (responses : Nat → ApiResp) (mw : Option Nat) (s : ApiState),
      (responses s.page_num = ApiResp.err ∨ responses s.page_num = ApiResp.badStatus ∨
       (∃ hm c, responses s.page_num = ApiResp.ok none hm c) ∨
       (∃ hm c, responses s.page_num = ApiResp.ok (some []) hm c)) →
      (apiRunAux responses mw 1 s).2 = true) := by
  refine ⟨?_, ?_, ?_⟩
  · intro responses mw hresp
    exact xhrRunAux_halts_empty responses mw hresp 3 xhrS0 (by simp [xhrS0])
  · intro l c mw
    rw [xhrRun]
    by_cases hg : xhrGuard mw xhrS0 = true
    · rw [show (4 : Nat) = 3 + 1 from rfl, xhrRunAux, if_pos hg]
      apply xhrRunAux_halts_const
      · intro it hit
        by_cases hid : it.aweme_id = ""
        · exact Or.inl hid
        · right
          rw [xhrStep]
          exact xhrAdd_seen_mem l _ it hit hid
      · omega
    · rw [xhrRunAux, if_neg hg]
      exact Bool.not_eq_true _ ▸ (by revert hg; cases xhrGuard mw xhrS0 <;> simp)
  · intro responses mw s hresp
    rw [apiRunAux]
    rcases hresp with h | h | ⟨hm, c, h⟩ | ⟨hm, c, h⟩ <;> rw [h] <;> rfl

/-- Helper for the C3 counterexample: on the constant productive stream the
direct-API loop never reaches any of its exits. -/
theorem apiRunAux_const_never :
    ∀ (n : Nat) (s : ApiState), (apiRunAux cexLoopResponses none n s).2 = false := by
  intro n
  induction n with
  | zero => intro s; rfl
  | succ n ih =>
    intro s
    rw [apiRunAux]
    have : apiIterate (cexLoopResponses s.page_num) none s =
        Sum.inl { all_works := s.all_works ++ [cexWorkA]
                , user_info := s.user_info
                , max_cursor := 0, page_num := s.page_num + 1 } := by
      rw [show cexLoopResponses s.page_num = ApiResp.ok (some [cexAwemeA]) true 0 from rfl]
      rw [apiIterate]
      cases hui : s.user_info <;> simp [apiAddItem, extract_user_info_from_item, cexAwemeA, hui, cexWorkA]
    rw [this]
    exact ih _

/-- Claim C3 counterexample: a response stream with a never-advancing cursor and
the same non-empty item list on every page, `has_more` always true, keeps
the direct-API pagination loop running for every amount of fuel — it is not
a stop condition. -/
theorem paginator_termination_claim_counterexample :
    ¬ ∃ n : Nat, (apiRunAux cexLoopResponses none n apiS0).2 = true := by
  rintro ⟨n, h⟩
  rw [apiRunAux_const_never n apiS0] at h
  exact absurd h (by simp)

/-- Witness for C3: an all-error stream stops the XHR loop within 3 fetches. -/
theorem paginator_termination_amended_witness :
    xhrGuard none (xhrRun (fun _ => XhrResp.err) none 3) = false :=
  paginator_termination_amended.1 (fun _ => XhrResp.err) none (fun _ => Or.inl rfl)

/-- Reflexivity of the lexicographic order. -/
theorem lexGe_refl (p : Nat × Nat) : lexGe p p := by
  unfold lexGe; omega

/-- Transitivity of the lexicographic order. -/
theorem lexGe_trans {p q r : Nat × Nat} (h1 : lexGe p q) (h2 : lexGe q r) : lexGe p r := by
  unfold lexGe at *; omega

/-- Strict-over-weak transitivity of the lexicographic order. -/
theorem lexGt_of_gt_of_ge {p q r : Nat × Nat} (h1 : lexGt p q) (h2 : lexGe q r) :
    lexGt p r := by
  unfold lexGt lexGe at *; omega

/-- Weak-over-strict transitivity of the lexicographic order. -/
theorem lexGt_of_ge_of_gt {p q r : Nat × Nat} (h1 : lexGe p q) (h2 : lexGt q r) :
    lexGt p r := by
  unfold lexGt lexGe at *; omega

/-- A strict comparison yields a weak one. -/
theorem lexGe_of_gt {p q : Nat × Nat} (h : lexGt p q) : lexGe p q := by
  unfold lexGt lexGe at *; omega

/-- Totality: a failed strict comparison yields the reverse weak one. -/
theorem lexGe_of_not_gt {p q : Nat × Nat} (h : ¬ lexGt p q) : lexGe q p := by
  unfold lexGt lexGe at *; omega

/-- Propositional characterisation of variant eligibility. -/
theorem eligVariant_iff (v : BitRateVariant) :
    eligVariant v = true ↔
      (v.format = "mp4" ∧ v.width ≠ 0 ∧ v.url_list ≠ [] ∧
       (v.width * v.height ≠ 0 ∨ v.bit_rate ≠ 0)) := by
  unfold eligVariant
  simp [List.isEmpty_iff, and_assoc]

/-- An eligible variant's key is lexicographically above `(0, 0)`. -/
theorem eligVariant_key_pos {v : BitRateVariant} (h : eligVariant v = true) :
    lexGt (vkey v) (0, 0) := by
  rcases (eligVariant_iff v).mp h with ⟨_, _, _, h4⟩
  unfold lexGt vkey
  omega

/-- The spec step preserves eligibility of the accumulator. -/
theorem specStep_elig {acc : Option BitRateVariant} {v : BitRateVariant}
    (hacc : ∀ b, acc = some b → eligVariant b = true) :
    ∀ b, specStep acc v = some b → eligVariant b = true := by
  intro b h
  cases acc with
  | none =>
    rw [specStep] at h
    by_cases he : eligVariant v = true
    · rw [if_pos he] at h; cases h; exact he
    · rw [if_neg he] at h; exact absurd h (by simp)
  | some c =>
    rw [specStep] at h
    by_cases he : eligVariant v = true
    · rw [if_pos he] at h
      by_cases hb : betterKey v c
      · rw [if_pos hb] at h; cases h; exact he
      · rw [if_neg hb] at h; cases h; exact hacc _ rfl
    · rw [if_neg he] at h; cases h; exact hacc _ rfl

/-- One-step simulation: the code's selection step tracks the spec's argmax
step through the abstraction `absSt`, provided the accumulator is eligible. -/
theorem selStep_sim (acc : Option BitRateVariant) (v : BitRateVariant)
    (hacc : ∀ b, acc = some b → eligVariant b = true) :
    selStep (absSt acc) v = absSt (specStep acc v) := by
  by_cases hfmt : v.format ≠ "mp4" ∨ v.width = 0
  · have helig : ¬ eligVariant v = true := by
      intro hc
      rcases (eligVariant_iff v).mp hc with ⟨h1, h2, _, _⟩
      rcases hfmt with h | h
      · exact h h1
      · exact h2 h
    cases acc with
    | none => rw [selStep, if_pos hfmt, specStep, if_neg helig]
    | some b => rw [selStep, if_pos hfmt, specStep, if_neg helig]
  · push_neg at hfmt
    obtain ⟨hf, hw⟩ := hfmt
    have hnotskip : ¬ (v.format ≠ "mp4" ∨ v.width = 0) := by
      push_neg
      exact ⟨hf, hw⟩
    cases acc with
    | none =>
      have hcond_iff : (v.width * v.height > (absSt none).res ∨
          (v.width * v.height = (absSt none).res ∧ v.bit_rate > (absSt none).br)) ↔
          lexGt (vkey v) (0, 0) := Iff.rfl
      by_cases hkey : lexGt (vkey v) (0, 0)
      · by_cases hurl : v.url_list = []
        · have helig : ¬ eligVariant v = true := fun hc =>
            ((eligVariant_iff v).mp hc).2.2.1 hurl
          rw [selStep, if_neg hnotskip, if_pos (hcond_iff.mpr hkey), if_pos hurl,
            specStep, if_neg helig]
        · have helig : eligVariant v = true := by
            apply (eligVariant_iff v).mpr
            refine ⟨hf, hw, hurl, ?_⟩
            unfold lexGt vkey at hkey
            omega
          rw [selStep, if_neg hnotskip, if_pos (hcond_iff.mpr hkey), if_neg hurl,
            specStep, if_pos helig]
          rfl
      · have helig : ¬ eligVariant v = true := fun hc => hkey (eligVariant_key_pos hc)
        rw [selStep, if_neg hnotskip, if_neg (fun hc => hkey (hcond_iff.mp hc)),
          specStep, if_neg helig]
    | some b =>
      have hbelig := hacc b rfl
      have hbkey := eligVariant_key_pos hbelig
      have hcond_iff : (v.width * v.height > (absSt (some b)).res ∨
          (v.width * v.height = (absSt (some b)).res ∧ v.bit_rate > (absSt (some b)).br)) ↔
          betterKey v b := Iff.rfl
      by_cases hbk : betterKey v b
      · by_cases hurl : v.url_list = []
        · have helig : ¬ eligVariant v = true := fun hc =>
            ((eligVariant_iff v).mp hc).2.2.1 hurl
          rw [selStep, if_neg hnotskip, if_pos (hcond_iff.mpr hbk), if_pos hurl,
            specStep, if_neg helig]
        · have helig : eligVariant v = true := by
            apply (eligVariant_iff v).mpr
            refine ⟨hf, hw, hurl, ?_⟩
            have hgt := lexGt_of_gt_of_ge hbk (lexGe_of_gt hbkey)
            unfold lexGt vkey at hgt
            omega
          rw [selStep, if_neg hnotskip, if_pos (hcond_iff.mpr hbk), if_neg hurl,
            specStep, if_pos helig, if_pos hbk]
          rfl
      · rw [selStep, if_neg hnotskip, if_neg (fun hc => hbk (hcond_iff.mp hc)), specStep]
        by_cases helig : eligVariant v = true
        · rw [if_pos helig, if_neg hbk]
        · rw [if_neg helig]

/-- Fold-level simulation of the selection loop by the spec argmax. -/
theorem selFold_sim :
    ∀ (l : List BitRateVariant) (acc : Option BitRateVariant),
      (∀ b, acc = some b → eligVariant b = true) →
      l.foldl selStep (absSt acc) = absSt (l.foldl specStep acc) := by
  intro l
  induction l with
  | nil => intro acc _; rfl
  | cons v t ih =>
    intro acc hacc
    rw [List.foldl_cons, List.foldl_cons, selStep_sim acc v hacc]
    exact ih _ (specStep_elig hacc)

/-- The selection loop's final state is the abstraction of the spec choice. -/
theorem selLoop_spec (l : List BitRateVariant) :
    selLoop l = absSt (chooseSpecVariant l) := by
  rw [selLoop, chooseSpecVariant, show ({ url := none, res := 0, br := 0 } : SelSt) =
    absSt none from rfl]
  exact selFold_sim l none (fun b h => by cases h)

/-- From a `some` accumulator the spec step yields a `some` result whose key
dominates both the old accumulator and (when eligible) the new variant. -/
theorem specStep_some_of_some (b : BitRateVariant) (v : BitRateVariant) :
    ∃ c, specStep (some b) v = some c ∧ lexGe (vkey c) (vkey b) ∧
      (eligVariant v = true → lexGe (vkey c) (vkey v)) := by
  rw [specStep]
  by_cases he : eligVariant v = true
  · rw [if_pos he]
    by_cases hb : betterKey v b
    · rw [if_pos hb]
      exact ⟨v, rfl, lexGe_of_gt hb, fun _ => lexGe_refl _⟩
    · rw [if_neg hb]
      exact ⟨b, rfl, lexGe_refl _, fun _ => lexGe_of_not_gt hb⟩
  · rw [if_neg he]
    exact ⟨b, rfl, lexGe_refl _, fun hc => absurd hc he⟩

/-- The spec fold's result key dominates the starting accumulator's key. -/
theorem specFold_ge :
    ∀ (l : List BitRateVariant) (b v : BitRateVariant),
      l.foldl specStep (some b) = some v → lexGe (vkey v) (vkey b) := by
  intro l
  induction l with
  | nil =>
    intro b v h
    cases h
    exact lexGe_refl _
  | cons x t ih =>
    intro b v h
    obtain ⟨c, hc, hcb, _⟩ := specStep_some_of_some b x
    rw [List.foldl_cons, hc] at h
    exact lexGe_trans (ih c v h) hcb

/-- The spec fold's result is the accumulator or an eligible list member. -/
theorem specFold_mem :
    ∀ (l : List BitRateVariant) (acc : Option BitRateVariant) (v : BitRateVariant),
      l.foldl specStep acc = some v →
      acc = some v ∨ (v ∈ l ∧ eligVariant v = true) := by
  intro l
  induction l with
  | nil => intro acc v h; exact Or.inl h
  | cons x t ih =>
    intro acc v h
    rw [List.foldl_cons] at h
    rcases ih _ v h with hL | ⟨hmem, he⟩
    · cases acc with
      | none =>
        rw [specStep] at hL
        by_cases he : eligVariant v = true
        · by_cases hex : eligVariant x = true
          · rw [if_pos hex] at hL
            cases hL
            exact Or.inr ⟨List.mem_cons_self _ _, hex⟩
          · rw [if_neg hex] at hL
            exact absurd hL (by simp)
        · by_cases hex : eligVariant x = true
          · rw [if_pos hex] at hL
            cases hL
            exact Or.inr ⟨List.mem_cons_self _ _, hex⟩
          · rw [if_neg hex] at hL
            exact absurd hL (by simp)
      | some b =>
        rw [specStep] at hL
        by_cases hex : eligVariant x = true
        · rw [if_pos hex] at hL
          by_cases hb : betterKey x b
          · rw [if_pos hb] at hL
            cases hL
            exact Or.inr ⟨List.mem_cons_self _ _, hex⟩
          · rw [if_neg hb] at hL
            exact Or.inl hL
        · rw [if_neg hex] at hL
          exact Or.inl hL
    · exact Or.inr ⟨List.mem_cons_of_mem _ hmem, he⟩

/-- The spec fold's result key dominates every eligible list member. -/
theorem specFold_max :
    ∀ (l : List BitRateVariant) (acc : Option BitRateVariant) (v : BitRateVariant),
      l.foldl specStep acc = some v →
      ∀ w ∈ l, eligVariant w = true → lexGe (vkey v) (vkey w) := by
  intro l
  induction l with
  | nil => intro acc v _ w hw; exact absurd hw (by simp)
  | cons x t ih =>
    intro acc v h w hw hwe
    rw [List.foldl_cons] at h
    rcases List.mem_cons.mp hw with heq | hmem
    · subst heq
      cases acc with
      | none =>
        rw [specStep, if_pos hwe] at h
        exact specFold_ge t w v h
      | some b =>
        obtain ⟨c, hc, _, hcw⟩ := specStep_some_of_some b w
        rw [hc] at h
        exact lexGe_trans (specFold_ge t c v h) (hcw hwe)
    · exact ih _ v h w hmem hwe

/-- The spec fold picks the earliest maximum: the winner splits the list so
that every earlier eligible variant is strictly worse. -/
theorem specFold_first :
    ∀ (l : List BitRateVariant) (acc : Option BitRateVariant) (v : BitRateVariant),
      l.foldl specStep acc = some v →
      acc = some v ∨
      (∃ l1 l2, l = l1 ++ v :: l2 ∧ eligVariant v = true ∧
        (∀ w ∈ l1, eligVariant w = true → lexGt (vkey v) (vkey w)) ∧
        (∀ b, acc = some b → lexGt (vkey v) (vkey b))) := by
  intro l
  induction l with
  | nil => intro acc v h; exact Or.inl h
  | cons x t ih =>
    intro acc v h
    rw [List.foldl_cons] at h
    rcases ih _ v h with hL | ⟨r1, r2, hsplit, hve, hr1, haccp⟩
    · -- the tail fold returned its accumulator: analyse the head step
      cases acc with
      | none =>
        rw [specStep] at hL
        by_cases hex : eligVariant x = true
        · rw [if_pos hex] at hL
          cases hL
          refine Or.inr ⟨[], t, rfl, hex, ?_, ?_⟩
          · intro w hw; exact absurd hw (by simp)
          · intro b hb; exact absurd hb (by simp)
        · rw [if_neg hex] at hL
          exact absurd hL (by simp)
      | some b =>
        rw [specStep] at hL
        by_cases hex : eligVariant x = true
        · rw [if_pos hex] at hL
          by_cases hbk : betterKey x b
          · rw [if_pos hbk] at hL
            cases hL
            refine Or.inr ⟨[], t, rfl, hex, ?_, ?_⟩
            · intro w hw; exact absurd hw (by simp)
            · intro c hc
              cases hc
              exact hbk
          · rw [if_neg hbk] at hL
            exact Or.inl hL
        · rw [if_neg hex] at hL
          exact Or.inl hL
    · -- the winner came from the tail: extend the decomposition with the head
      refine Or.inr ⟨x :: r1, r2, by rw [hsplit]; rfl, hve, ?_, ?_⟩
      · intro w hw hwe
        rcases List.mem_cons.mp hw with heq | hmem
        · subst heq
          cases acc with
          | none =>
            rw [specStep, if_pos hwe] at haccp
            exact haccp w rfl
          | some b =>
            rw [specStep, if_pos hwe] at haccp
            by_cases hbk : betterKey w b
            · rw [if_pos hbk] at haccp
              exact haccp w rfl
            · rw [if_neg hbk] at haccp
              exact lexGt_of_gt_of_ge (haccp b rfl) (lexGe_of_not_gt hbk)
        · exact hr1 w hmem hwe
      · intro b hb
        subst hb
        rw [specStep] at haccp
        by_cases hex : eligVariant x = true
        · rw [if_pos hex] at haccp
          by_cases hbk : betterKey x b
          · rw [if_pos hbk] at haccp
            exact lexGt_of_gt_of_ge (haccp x rfl) (lexGe_of_gt hbk)
          · rw [if_neg hbk] at haccp
            exact haccp b rfl
        · rw [if_neg hex] at haccp
          exact haccp b rfl

/-- When the spec fold returns nothing, no list member is eligible. -/
theorem specFold_none :
    ∀ (l : List BitRateVariant) (acc : Option BitRateVariant),
      l.foldl specStep acc = none →
      acc = none ∧ ∀ w ∈ l, eligVariant w = false := by
  intro l
  induction l with
  | nil => intro acc h; exact ⟨h, by simp⟩
  | cons x t ih =>
    intro acc h
    rw [List.foldl_cons] at h
    obtain ⟨hstep, htail⟩ := ih _ h
    have hx : eligVariant x = false ∧ acc = none := by
      cases acc with
      | none =>
        rw [specStep] at hstep
        by_cases hex : eligVariant x = true
        · rw [if_pos hex] at hstep; exact absurd hstep (by simp)
        · exact ⟨Bool.eq_false_iff.mpr hex, rfl⟩
      | some b =>
        rw [specStep] at hstep
        by_cases hex : eligVariant x = true
        · rw [if_pos hex] at hstep
          by_cases hbk : betterKey x b
          · rw [if_pos hbk] at hstep; exact absurd hstep (by simp)
          · rw [if_neg hbk] at hstep; exact absurd hstep (by simp)
        · rw [if_neg hex] at hstep; exact absurd hstep (by simp)
    refine ⟨hx.2, ?_⟩
    intro w hw
    rcases List.mem_cons.mp hw with heq | hmem
    · rw [heq]; exact hx.1
    · exact htail w hmem

/-- Claim C1 (amended): the final URL of `_parse_video_detail` (and of the same
loop in `extract_video_from_api`) is obtained from the earliest variant
maximising `(width*height, bit_rate)` among variants that are mp4, have
nonzero width, a non-empty candidate list and a key above `(0,0)` — taking
its first candidate containing `douyinvod.com`, else its first candidate —
with an empty-string or missing selection falling back to the default
`play_addr` first URL, and a still-falsy URL giving `None`. -/
theorem quality_selection_amended (video : VideoDetail) :
    (videoBestUrl video =
      (let chosen :=
        match chooseSpecVariant (video.bit_rate.getD []) with
        | some v => variantUrl v
        | none => none
       let u1 := if truthyS chosen then chosen else video.play_addr_urls.head?
       if truthyS u1 then u1 else none)) ∧
    (∀ v, chooseSpecVariant (video.bit_rate.getD []) = some v →
      (v ∈ video.bit_rate.getD [] ∧ eligVariant v = true) ∧
      (∀ w ∈ video.bit_rate.getD [], eligVariant w = true → lexGe (vkey v) (vkey w)) ∧
      (∃ l1 l2, video.bit_rate.getD [] = l1 ++ v :: l2 ∧
        ∀ w ∈ l1, eligVariant w = true → lexGt (vkey v) (vkey w))) ∧
    (chooseSpecVariant (video.bit_rate.getD []) = none →
      ∀ w ∈ video.bit_rate.getD [], eligVariant w = false) := by
  refine ⟨?_, ?_, ?_⟩
  · rw [videoBestUrl, selLoop_spec]
    cases hc : chooseSpecVariant (video.bit_rate.getD []) <;> rfl
  · intro v hv
    rw [chooseSpecVariant] at hv
    refine ⟨?_, specFold_max _ none v hv, ?_⟩
    · rcases specFold_mem _ none v hv with h | h
      · exact absurd h (by simp)
      · exact h
    · rcases specFold_first _ none v hv with h | ⟨l1, l2, hsplit, _, hl1, _⟩
      · exact absurd h (by simp)
      · exact ⟨l1, l2, hsplit, hl1⟩
  · intro hn
    rw [chooseSpecVariant] at hn
    exact (specFold_none _ none hn).2

/-- Claim C1 counterexample: the returned URL comes from a variant of resolution 1
although an mp4 variant with positive width and resolution 4 exists — the
code skips it because its candidate URL list is empty, so the chosen variant
does not maximise `width*height` over all mp4/width>0 variants. -/
theorem quality_selection_claim_counterexample :
    videoBestUrl cexVideo = some "https://b.example/x" ∧
    cexV1 ∈ cexVideo.bit_rate.getD [] ∧
    cexV1.format = "mp4" ∧ 0 < cexV1.width ∧
    (∀ v ∈ cexVideo.bit_rate.getD [], "https://b.example/x" ∈ v.url_list →
      v.width * v.height < cexV1.width * cexV1.height) := by
  refine ⟨by decide, by decide, rfl, by decide, by decide⟩

/-- Witness for C1: on a payload with two eligible variants the selection
returns the douyinvod URL of the maximal variant, which dominates both. -/
theorem quality_selection_amended_witness :
    videoBestUrl wVideo = some "https://x.douyinvod.com/1" ∧
    (∀ w ∈ wVideo.bit_rate.getD [], eligVariant w = true → lexGe (vkey wV1) (vkey w)) :=
  ⟨by decide, ((quality_selection_amended wVideo).2.1 wV1 (by decide)).2.1⟩

/-- A successfully selected video URL is never the empty string. -/
theorem videoBestUrl_ne_empty (v : VideoDetail) (u : String)
    (h : videoBestUrl v = some u) : u ≠ "" := by
  rw [videoBestUrl] at h
  split at h
  · rename_i ht
    rw [h] at ht
    simp [truthyS] at ht
    exact ht
  · split at h
    · rename_i ht
      rw [h] at ht
      simp [truthyS] at ht
      exact ht
    · exact absurd h (by simp)

/-- The shape of a parsed video detail: type `video`, one video item with a
non-empty URL. -/
theorem parse_video_detail_shape (d : Option Detail) (r : ExtractionResult)
    (h : parse_video_detail d = some r) :
    r.rtype = "video" ∧ ∃ u c, r.items = [MediaItem.video u c] ∧ u ≠ "" := by
  cases d with
  | none => exact absurd h (by simp [parse_video_detail])
  | some detail =>
    rw [parse_video_detail] at h
    split at h
    · exact absurd h (by simp)
    · split at h
      · exact absurd h (by simp)
      · split at h
        · exact absurd h (by simp)
        · rename_i hu
          cases h
          exact ⟨rfl, _, _, rfl, videoBestUrl_ne_empty _ _ hu⟩

/-- The shape of an item produced by the note reconciliation. -/
theorem itemOf_shape (rec : ImageRecord) (m : MediaItem) (h : itemOf rec = some m) :
    (∃ i, m = MediaItem.image i ∧ i ≠ "") ∨
    (∃ i vd, m = MediaItem.animated (some i) vd ∧ i ≠ "" ∧ vd ≠ "") := by
  rw [itemOf] at h
  cases hv : noteVideoUrl rec with
  | none =>
    rw [hv] at h
    cases hi : imageUrlOf rec with
    | none => rw [hi] at h; exact absurd h (by simp)
    | some i =>
      rw [hi] at h
      by_cases h1 : i = ""
      · simp [h1] at h
      · simp only [if_pos h1] at h
        cases h
        exact Or.inl ⟨i, rfl, h1⟩
  | some vd =>
    rw [hv] at h
    cases hi : imageUrlOf rec with
    | none => rw [hi] at h; exact absurd h (by simp)
    | some i =>
      rw [hi] at h
      by_cases h2 : vd ≠ "" ∧ i ≠ ""
      · simp only [if_pos h2] at h
        cases h
        exact Or.inr ⟨i, vd, rfl, h2.2, h2.1⟩
      · simp only [if_neg h2] at h
        by_cases h1 : i = ""
        · simp [h1] at h
        · simp only [if_pos h1] at h
          cases h
          exact Or.inl ⟨i, rfl, h1⟩

/-- The shape of every member of a reconciled note items list. -/
theorem note_items_shape (images : List ImageRecord) (m : MediaItem)
    (h : m ∈ extract_note_items images) :
    (∃ i, m = MediaItem.image i ∧ i ≠ "") ∨
    (∃ i vd, m = MediaItem.animated (some i) vd ∧ i ≠ "" ∧ vd ≠ "") := by
  rw [extract_note_items] at h
  obtain ⟨rec, _, hrec⟩ := List.mem_filterMap.mp h
  exact itemOf_shape rec m hrec

/-- A successful note-API extraction's items list comes from the payload's
image records. -/
theorem extract_note_from_api_items (resp : Option Detail) (md : Metadata)
    (items : List MediaItem) (h : extract_note_from_api resp = some (md, items)) :
    ∃ images, items = extract_note_items images := by
  cases resp with
  | none => exact absurd h (by simp [extract_note_from_api])
  | some detail =>
    rw [extract_note_from_api] at h
    split at h
    · exact absurd h (by simp)
    · rename_i images hi
      cases h
      exact ⟨images, rfl⟩

/-- The shape of a note-API result: type `images`, non-empty items, each a
non-empty image or an animated item with both URLs non-empty. -/
theorem noteApiResult_shape (resp : Option Detail) (r : ExtractionResult)
    (h : noteApiResult resp = some r) :
    r.rtype = "images" ∧ r.items ≠ [] ∧
    ∀ m ∈ r.items,
      (∃ i, m = MediaItem.image i ∧ i ≠ "") ∨
      (∃ i vd, m = MediaItem.animated (some i) vd ∧ i ≠ "" ∧ vd ≠ "") := by
  rw [noteApiResult] at h
  split at h
  · rename_i md items heq
    split at h
    · rename_i hne
      cases h
      obtain ⟨images, hitems⟩ := extract_note_from_api_items resp md items heq
      subst hitems
      exact ⟨rfl, hne, fun m hm => note_items_shape images m hm⟩
    · exact absurd h (by simp)
  · exact absurd h (by simp)

/-- The shape of the positionally paired animated DOM items. -/
theorem domAnimatedItems_shape :
    ∀ (vs imgs : List String) (m : MediaItem), m ∈ domAnimatedItems vs imgs →
      ∃ io vd, m = MediaItem.animated io vd ∧ vd ∈ vs ∧
        ∀ i, io = some i → i ∈ imgs := by
  intro vs
  induction vs with
  | nil => intro imgs m h; exact absurd h (by simp [domAnimatedItems])
  | cons v t ih =>
    intro imgs m h
    rw [domAnimatedItems] at h
    rcases List.mem_cons.mp h with heq | hmem
    · refine ⟨imgs.head?, v, heq, List.mem_cons_self _ _, ?_⟩
      intro i hi
      cases imgs with
      | nil => exact absurd hi (by simp)
      | cons a rest =>
        simp at hi
        rw [hi]
        exact List.mem_cons_self _ _
    · obtain ⟨io, vd, hm, hvd, hio⟩ := ih imgs.tail m hmem
      refine ⟨io, vd, hm, List.mem_cons_of_mem _ hvd, ?_⟩
      intro i hi
      cases imgs with
      | nil => exact absurd (hio i hi) (by simp)
      | cons a rest => exact List.mem_cons_of_mem _ (hio i hi)

/-- The shape of a DOM-fallback result: type `images`, non-empty items, each
item either an input image URL or an animated item pairing an input video
URL with an optional input image URL. -/
theorem noteDomFallback_shape (di dv : List String) (r : ExtractionResult)
    (h : noteDomFallback di dv = some r) :
    r.rtype = "images" ∧ r.items ≠ [] ∧
    ∀ m ∈ r.items,
      (∃ i, m = MediaItem.image i ∧ i ∈ di) ∨
      (∃ io vd, m = MediaItem.animated io vd ∧ vd ∈ dv ∧
        ∀ i, io = some i → i ∈ di) := by
  rw [noteDomFallback] at h
  split at h
  · -- dom videos present: animated pairing plus surplus images
    split at h
    · rename_i hne
      cases h
      refine ⟨rfl, hne, ?_⟩
      intro m hm
      rcases List.mem_append.mp hm with h1 | h1
      · obtain ⟨io, vd, hmeq, hvd, hio⟩ := domAnimatedItems_shape dv di m h1
        exact Or.inr ⟨io, vd, hmeq, hvd, hio⟩
      · obtain ⟨i, hi, hieq⟩ := List.mem_map.mp h1
        exact Or.inl ⟨i, hieq.symm, List.drop_subset _ _ hi⟩
    · exact absurd h (by simp)
  · -- no dom videos: plain image items only
    split at h
    · rename_i hne
      cases h
      refine ⟨rfl, hne, ?_⟩
      intro m hm
      obtain ⟨i, hi, hieq⟩ := List.mem_map.mp hm
      exact Or.inl ⟨i, hieq.symm, hi⟩
    · exact absurd h (by simp)

/-- The URL captured by the unknown-branch response listener is non-empty. -/
theorem unknownFound_shape (listen : Option Detail) (u cov : String) (md : Metadata)
    (h : unknownFound listen = some (u, cov, md)) : u ≠ "" := by
  cases listen with
  | none => exact absurd h (by simp [unknownFound])
  | some detail =>
    rw [unknownFound] at h
    split at h
    · exact absurd h (by simp)
    · split at h
      · exact absurd h (by simp)
      · split at h
        · exact absurd h (by simp)
        · rename_i hw
          cases h
          exact videoBestUrl_ne_empty _ _ hw

/-- Assembling the C7 conclusion for a video-shaped result. -/
theorem conclusion_of_video (r : ExtractionResult)
    (h1 : r.rtype = "video")
    (h2 : ∃ u c, r.items = [MediaItem.video u c] ∧ u ≠ "") :
    (r.rtype = "video" ∨ r.rtype = "images") ∧
    r.items ≠ [] ∧
    (r.rtype = "video" → ∃ u c, r.items = [MediaItem.video u c] ∧ u ≠ "") ∧
    (r.rtype = "images" → ∀ m ∈ r.items,
      (∀ u c, m ≠ MediaItem.video u c) ∧
      (∀ i, m = MediaItem.image i → i ≠ "") ∧
      (∀ io vd, m = MediaItem.animated io vd → vd ≠ "" ∧ ∀ i, io = some i → i ≠ "")) := by
  obtain ⟨u, c, hitems, hu⟩ := h2
  refine ⟨Or.inl h1, by rw [hitems]; simp, fun _ => ⟨u, c, hitems, hu⟩, ?_⟩
  intro him
  rw [h1] at him
  exact absurd him (by decide)

/-- Assembling the C7 conclusion for an images-shaped result. -/
theorem conclusion_of_images (r : ExtractionResult)
    (h1 : r.rtype = "images") (h2 : r.items ≠ [])
    (h3 : ∀ m ∈ r.items,
      (∃ i, m = MediaItem.image i ∧ i ≠ "") ∨
      (∃ io vd, m = MediaItem.animated io vd ∧ vd ≠ "" ∧ ∀ i, io = some i → i ≠ "")) :
    (r.rtype = "video" ∨ r.rtype = "images") ∧
    r.items ≠ [] ∧
    (r.rtype = "video" → ∃ u c, r.items = [MediaItem.video u c] ∧ u ≠ "") ∧
    (r.rtype = "images" → ∀ m ∈ r.items,
      (∀ u c, m ≠ MediaItem.video u c) ∧
      (∀ i, m = MediaItem.image i → i ≠ "") ∧
      (∀ io vd, m = MediaItem.animated io vd → vd ≠ "" ∧ ∀ i, io = some i → i ≠ "")) := by
  refine ⟨Or.inr h1, h2, ?_, ?_⟩
  · intro hvid
    rw [h1] at hvid
    exact absurd hvid (by decide)
  · intro _ m hm
    rcases h3 m hm with ⟨i, heq, hi0⟩ | ⟨io, vd, heq, hvd, hio⟩
    · subst heq
      refine ⟨by simp, ?_, by simp⟩
      intro i0 h0
      simp only [MediaItem.image.injEq] at h0
      subst h0
      exact hi0
    · subst heq
      refine ⟨by simp, by simp, ?_⟩
      intro io0 vd0 h0
      simp only [MediaItem.animated.injEq] at h0
      obtain ⟨ho, hv0⟩ := h0
      subst ho
      subst hv0
      exact ⟨hvd, hio⟩

/-- The note-API item shape implies the general animated/image item shape. -/
theorem api_item_shape_weaken (m : MediaItem)
    (h : (∃ i, m = MediaItem.image i ∧ i ≠ "") ∨
         (∃ i vd, m = MediaItem.animated (some i) vd ∧ i ≠ "" ∧ vd ≠ "")) :
    (∃ i, m = MediaItem.image i ∧ i ≠ "") ∨
    (∃ io vd, m = MediaItem.animated io vd ∧ vd ≠ "" ∧ ∀ i, io = some i → i ≠ "") := by
  rcases h with ⟨i, heq, hi0⟩ | ⟨i, vd, heq, hi0, hvd⟩
  · exact Or.inl ⟨i, heq, hi0⟩
  · refine Or.inr ⟨some i, vd, heq, hvd, ?_⟩
    intro i0 h0
    cases h0
    exact hi0

/-- Claim C7 (amended): `get_douyin_media` returns `None` or a record whose type is
`video` or `images`, with a non-empty items list; a video result carries one
video item with a non-empty URL; an images result carries only image or
animated items whose present URLs are non-empty — but an animated item from
the DOM fallback may lack the image URL entirely (its `image_url` is
optional), whenever the collected videos outnumber the collected images.
The hypotheses on the DOM oracles reflect that the DOM extractors only emit
URLs containing a CDN marker, hence non-empty. -/
theorem all_or_nothing_amended
    (redirect : String → Option String) (url : String)
    (intercept direct note_resp listen unknown_note : Option Detail)
    (dom_images dom_videos : List String) (final_url : String)
    (hvne : ∀ v ∈ dom_videos, v ≠ "") (hine : ∀ i ∈ dom_images, i ≠ "")
    (r : ExtractionResult)
    (h : get_douyin_media_core redirect url intercept direct note_resp listen
          unknown_note dom_images dom_videos final_url = some r) :
    (r.rtype = "video" ∨ r.rtype = "images") ∧
    r.items ≠ [] ∧
    (r.rtype = "video" → ∃ u c, r.items = [MediaItem.video u c] ∧ u ≠ "") ∧
    (r.rtype = "images" → ∀ m ∈ r.items,
      (∀ u c, m ≠ MediaItem.video u c) ∧
      (∀ i, m = MediaItem.image i → i ≠ "") ∧
      (∀ io vd, m = MediaItem.animated io vd → vd ≠ "" ∧ ∀ i, io = some i → i ≠ "")) := by
  rw [get_douyin_media_core] at h
  split at h
  · -- classified as a video page
    split at h
    · rename_i hr0
      cases h
      obtain ⟨h1, h2⟩ := parse_video_detail_shape intercept _ hr0
      exact conclusion_of_video _ h1 h2
    · obtain ⟨h1, h2⟩ := parse_video_detail_shape direct r h
      exact conclusion_of_video _ h1 h2
  · split at h
    · -- classified as a note page
      split at h
      · rename_i hr0
        cases h
        obtain ⟨h1, h2, h3⟩ := noteApiResult_shape note_resp _ hr0
        exact conclusion_of_images _ h1 h2
          (fun m hm => api_item_shape_weaken m (h3 m hm))
      · obtain ⟨h1, h2, h3⟩ := noteDomFallback_shape dom_images dom_videos r h
        apply conclusion_of_images _ h1 h2
        intro m hm
        rcases h3 m hm with ⟨i, heq, hin⟩ | ⟨io, vd, heq, hvd, hio⟩
        · exact Or.inl ⟨i, heq, hine i hin⟩
        · exact Or.inr ⟨io, vd, heq, hvne vd hvd, fun i0 h0 => hine i0 (hio i0 h0)⟩
    · -- unknown classification: branch on the final URL
      split at h
      · split at h
        · rename_i hfound
          cases h
          exact conclusion_of_video _ rfl
            ⟨_, _, rfl, unknownFound_shape listen _ _ _ hfound⟩
        · split at h
          · obtain ⟨h1, h2⟩ := parse_video_detail_shape direct r h
            exact conclusion_of_video _ h1 h2
          · exact absurd h (by simp)
      · split at h
        · split at h
          · obtain ⟨h1, h2, h3⟩ := noteApiResult_shape unknown_note r h
            exact conclusion_of_images _ h1 h2
              (fun m hm => api_item_shape_weaken m (h3 m hm))
          · exact absurd h (by simp)
        · exact absurd h (by simp)

/-- Claim C7 counterexample: on the note DOM-fallback path with one collected
video and no collected images, the returned record's only item is an
`animated_image` carrying no `image_url` — a partially-filled item. -/
theorem all_or_nothing_claim_counterexample :
    get_douyin_media_core (fun _ => none) "https://www.douyin.com/note/123"
        none none none none none [] cexDomVideos "" =
      some { title := "", author := "", author_id := "", cover := ""
           , rtype := "images"
           , items := [MediaItem.animated none "https://v3-web.douyinvod.com/video/tos/a"] } := by
  decide

/-- Witness for C7: a successful note-API extraction of one image satisfies
the amended shape. -/
theorem all_or_nothing_amended_witness :
    (wNoteResult.rtype = "video" ∨ wNoteResult.rtype = "images") ∧
    wNoteResult.items ≠ [] := by
  have t := all_or_nothing_amended (fun _ => none) "https://www.douyin.com/note/5"
    none none (some wNoteDetail) none none [] [] ""
    (by intro v hv; exact absurd hv (by simp))
    (by intro i hi; exact absurd hi (by simp))
    wNoteResult (by decide)
  exact ⟨t.1, t.2.1⟩
